import Mathlib

/-!
Verification of the consumer-credit-trends data processing pipeline
(`process_incoming_data.py`) against its natural-language specification.

The Python source is shallowly embedded: CSV rows are lists of strings,
Python runtime values appearing in output rows are modelled by `PyVal`,
exceptions by `Except PyError`, and `float` values by exact (unnormalised)
fractions `Frac` built from decimal literals.  Dictionaries are modelled as
insertion-ordered association lists (`dictGet` / `dictSet`); CPython 2's
actual hash-ordering of `dict.items()` is unspecified, and every consumer
of an iteration order below either sorts the result or only performs key
lookups, so the association-list order is immaterial.
-/

/-- Python runtime values that can appear in an output data row:
`None`, an `int`, or a `str`. -/
inductive PyVal where
  | none
  | int (i : Int)
  | str (s : String)
deriving DecidableEq, Repr

/-- Python exceptions raised by the pipeline.  The three classification
failures are raised as `TypeError` in the source with distinct messages;
they are modelled as distinct constructors carrying the source filename and
the offending row, matching the spec's error taxonomy. -/
inductive PyError where
  | valueError (msg : String)
  | typeError (msg : String)
  | keyError (key : String)
  | attributeError (msg : String)
  | indexError (msg : String)
  | unrecognizedAdjustment (filename : String) (row : List String)
  | illegalGroupName (filename : String) (row : List String)
  | malformedYoyRow (filename : String) (row : List String)
deriving DecidableEq, Repr

instance {ε α : Type} [DecidableEq ε] [DecidableEq α] : DecidableEq (Except ε α) := fun a b =>
  match a, b with
  | .ok x, .ok y =>
    if h : x = y then isTrue (by rw [h]) else isFalse (fun c => by cases c; exact h rfl)
  | .error x, .error y =>
    if h : x = y then isTrue (by rw [h]) else isFalse (fun c => by cases c; exact h rfl)
  | .ok _, .error _ => isFalse (fun c => by cases c)
  | .error _, .ok _ => isFalse (fun c => by cases c)

/-- An exact rational value `num / den`, not normalised.  Models a Python
`float` parsed from a decimal literal; the pipeline only stores, scales by
powers of ten and prints these values, and all such operations are exact at
the magnitudes involved, so exact arithmetic is a faithful model. -/
structure Frac where
  num : Int
  den : Nat
deriving DecidableEq, Repr

/-! ### Character and string helpers

Core `String` functions are avoided because most do not reduce in the
kernel; the pipeline's string operations are re-implemented over
`String.data` (lists of characters). -/

def isDigitC (c : Char) : Bool := '0' ≤ c && c ≤ '9'

def digitVal (c : Char) : Nat := c.toNat - 48

def digitChar (n : Nat) : Char := Char.ofNat (48 + n)

def digitsToNat (acc : Nat) : List Char → Nat
  | [] => acc
  | c :: cs => digitsToNat (acc * 10 + digitVal c) cs

def lowerChar (c : Char) : Char :=
  if 'A' ≤ c && c ≤ 'Z' then Char.ofNat (c.toNat + 32) else c

/-- `str.lower()` (ASCII, which is all this data contains). -/
def pyLower (s : String) : String := ⟨s.data.map lowerChar⟩

def isPrefixL : List Char → List Char → Bool
  | [], _ => true
  | _ :: _, [] => false
  | a :: as, b :: bs => a == b && isPrefixL as bs

def isInfixL (nd : List Char) : List Char → Bool
  | [] => isPrefixL nd []
  | c :: rest => isPrefixL nd (c :: rest) || isInfixL nd rest

/-- Python's `needle in hay` on strings: contiguous substring test. -/
def pyIn (needle hay : String) : Bool := isInfixL needle.data hay.data

/-- Python's whitespace set stripped by `str.strip()` / numeric parsing. -/
def isPySpace (c : Char) : Bool :=
  c == ' ' || c == '\t' || c == '\n' || c == '\r' || c == Char.ofNat 11 || c == Char.ofNat 12

def pyStripL (l : List Char) : List Char :=
  ((l.dropWhile isPySpace).reverse.dropWhile isPySpace).reverse

/-- `str.strip()`. -/
def pyStrip (s : String) : String := ⟨pyStripL s.data⟩

/-- `s[:-n]` (empty when the string has at most `n` characters). -/
def pyDropRight (s : String) (n : Nat) : String := ⟨s.data.take (s.data.length - n)⟩

/-- `s[n:]`. -/
def pyDropLeft (s : String) (n : Nat) : String := ⟨s.data.drop n⟩

/-- `s.replace(" ", "&nbsp;")` (single-character needle suffices here). -/
def replaceSpaceNbsp (s : String) : String :=
  ⟨s.data.flatMap (fun c => if c = ' ' then "&nbsp;".data else [c])⟩

def parseSign : List Char → Int × List Char
  | '+' :: cs => (1, cs)
  | '-' :: cs => (-1, cs)
  | cs => (1, cs)

/-- Python `int(s)` on a string: optional surrounding whitespace, optional
sign, one or more decimal digits. -/
def parseInt (s : String) : Option Int :=
  let cs := pyStripL s.data
  match parseSign cs with
  | (sgn, ds) =>
    if ds.isEmpty || !(ds.all isDigitC) then Option.none
    else some (sgn * (digitsToNat 0 ds : Int))

def parseExpPart (mant : Int) (fracLen : Nat) (cs : List Char) : Option Frac :=
  match parseSign cs with
  | (esgn, cs) =>
    let ed := cs.takeWhile isDigitC
    let rest := cs.dropWhile isDigitC
    if ed.isEmpty || !rest.isEmpty then Option.none
    else
      let e : Nat := digitsToNat 0 ed
      if esgn = 1 then some ⟨mant * (10 : Int) ^ e, 10 ^ fracLen⟩
      else some ⟨mant, 10 ^ (fracLen + e)⟩

/-- Python `float(s)` on a string, for the decimal-literal grammar
`[ws] [sign] (digits [. digits] | . digits) [(e|E) [sign] digits] [ws]`
(the special tokens `inf`/`nan` never occur in this data; placeholder
tokens such as `"NA"` fail to parse, which is what the pipeline relies
on). -/
def parseFloat (s : String) : Option Frac :=
  let cs := pyStripL s.data
  match parseSign cs with
  | (sgn, cs) =>
    let ip := cs.takeWhile isDigitC
    let cs := cs.dropWhile isDigitC
    let fpAndRest : List Char × List Char :=
      match cs with
      | '.' :: rest => (rest.takeWhile isDigitC, rest.dropWhile isDigitC)
      | _ => ([], cs)
    match fpAndRest with
    | (fp, cs) =>
      if ip.isEmpty && fp.isEmpty then Option.none
      else
        let mant : Int := sgn * (digitsToNat 0 (ip ++ fp) : Int)
        match cs with
        | [] => some ⟨mant, 10 ^ fp.length⟩
        | 'e' :: rest => parseExpPart mant fp.length rest
        | 'E' :: rest => parseExpPart mant fp.length rest
        | _ => Option.none

/-- Python `float(v)` on a runtime value: strings are parsed (failing with
`ValueError`), ints are exact, and `None` raises `TypeError` — which the
formatters' `except ValueError` handlers do NOT catch. -/
def pyFloatVal (v : PyVal) : Except PyError Frac :=
  match v with
  | .str s =>
    match parseFloat s with
    | some q => .ok q
    | Option.none => .error (.valueError "could not convert string to float")
  | .int i => .ok ⟨i, 1⟩
  | .none => .error (.typeError "float() argument must be a string or a number")

/-! ### Month/Date codec (`actual_date`, `epochtime`) -/

def BASE_YEAR : Int := 2000

def SEC_TO_MS : Int := 1000

/-- The two `strftime` schemas used by the source: the machine format
`"%Y-%m"` and the human format `"%B %Y"` used by the data snapshot. -/
inductive DateSchema where
  | ym
  | monthYear
deriving DecidableEq, Repr

def MONTH_NAMES : List String :=
  ["January", "February", "March", "April", "May", "June", "July",
   "August", "September", "October", "November", "December"]

def pad2L (n : Nat) : List Char := [digitChar (n / 10 % 10), digitChar (n % 10)]

/-- `date(y, mo, 1).strftime("%Y-%m")`: zero-padded 4-digit year, dash,
zero-padded 2-digit month. -/
def formatYM (y mo : Nat) : String :=
  ⟨[digitChar (y / 1000 % 10), digitChar (y / 100 % 10), digitChar (y / 10 % 10),
    digitChar (y % 10), '-'] ++ pad2L mo⟩

def renderDate (schema : DateSchema) (y mo : Nat) : String :=
  match schema with
  | .ym => formatYM y mo
  | .monthYear => (MONTH_NAMES.getD (mo - 1) "") ++ " " ++ toString y

/-- `actual_date(month, schema)`: January 2000 is month zero.  Python 2's
`month/12` and `month % 12` are floor division and nonnegative remainder,
which for the positive divisor 12 coincide with Lean's Euclidean `/` and
`%` on `Int`.  `datetime.date` accepts years 1..9999 only (`datetime.MAXYEAR`
is 9999) and raises `ValueError` outside that range. -/
def actual_date (month : Int) (schema : DateSchema) : Except PyError String :=
  let addl_years := month / 12
  let addl_months := month % 12 + 1
  let y := BASE_YEAR + addl_years
  if 1 ≤ y && y ≤ 9999 then .ok (renderDate schema y.toNat addl_months.toNat)
  else .error (.valueError "year is out of range")

/-- `strptime(s, "%Y-%m")`: exactly four digits, a dash, then a one- or
two-digit month in 1..12; the parsed day defaults to 1 and the year must be
at least `datetime.MINYEAR` = 1. -/
def parseDateYM (s : String) : Option (Nat × Nat) :=
  match s.data with
  | [a, b, c, d, '-', e] =>
    if isDigitC a && isDigitC b && isDigitC c && isDigitC d && isDigitC e then
      let y := digitVal a * 1000 + digitVal b * 100 + digitVal c * 10 + digitVal d
      let mo := digitVal e
      if 1 ≤ y && 1 ≤ mo then some (y, mo) else Option.none
    else Option.none
  | [a, b, c, d, '-', e, f] =>
    if isDigitC a && isDigitC b && isDigitC c && isDigitC d && isDigitC e && isDigitC f then
      let y := digitVal a * 1000 + digitVal b * 100 + digitVal c * 10 + digitVal d
      let mo := digitVal e * 10 + digitVal f
      if 1 ≤ y && 1 ≤ mo && mo ≤ 12 then some (y, mo) else Option.none
    else Option.none
  | _ => Option.none

/-- Days from 1970-01-01 to `y`-`mo`-01 in the proleptic Gregorian
calendar (the standard days-from-civil computation, matching
`datetime.date - datetime(1970,1,1)`). -/
def epochDays (y mo : Nat) : Int :=
  let yp : Int := if mo ≤ 2 then (y : Int) - 1 else (y : Int)
  let era : Int := yp / 400
  let yoe : Int := yp - era * 400
  let mp : Int := if 2 < mo then (mo : Int) - 3 else (mo : Int) + 9
  let doy : Int := (153 * mp + 2) / 5
  let doe : Int := yoe * 365 + yoe / 4 - yoe / 100 + doy
  era * 146097 + doe - 719468

/-- `epochtime(datestring)`: parse per `"%Y-%m"` and return seconds since
the Unix epoch (`total_seconds()` is exact at these magnitudes, so
`int(round(...))` is the integer itself). -/
def epochtime (datestring : String) : Except PyError Int :=
  match parseDateYM datestring with
  | some (y, mo) => .ok (epochDays y mo * 86400)
  | Option.none => .error (.valueError "time data does not match format")

/-- `epochtime` applied to a runtime value: `strptime` requires a string
argument and raises `TypeError` otherwise. -/
def epochtimeVal (v : PyVal) : Except PyError Int :=
  match v with
  | .str s => epochtime s
  | _ => .error (.typeError "strptime() argument 1 must be string")

/-! ### Dictionaries as insertion-ordered association lists -/

def dictGet {κ β : Type} [DecidableEq κ] (k : κ) : List (κ × β) → Option β
  | [] => Option.none
  | (k', v) :: rest => if k = k' then some v else dictGet k rest

def dictSet {κ β : Type} [DecidableEq κ] (k : κ) (v : β) : List (κ × β) → List (κ × β)
  | [] => [(k, v)]
  | (k', v') :: rest => if k = k' then (k', v) :: rest else (k', v') :: dictSet k v rest

def dictHasKey {κ β : Type} [DecidableEq κ] (k : κ) (p : List (κ × β)) : Bool :=
  (dictGet k p).isSome

/-! ### Sorting output rows (`data.sort()`)

Python 2's `list.sort()` compares the heterogeneous output rows
lexicographically element by element with `None` smaller than every other
value and numbers smaller than strings, and is stable.  A stable insertion
sort with the same total preorder produces the identical list, and unlike
core `List.mergeSort` it reduces in the kernel. -/

def strCmpL : List Char → List Char → Ordering
  | [], [] => .eq
  | [], _ :: _ => .lt
  | _ :: _, [] => .gt
  | a :: as, b :: bs => if a < b then .lt else if b < a then .gt else strCmpL as bs

/-- Python 2 `cmp` on the value types occurring in output rows. -/
def pyValCmp : PyVal → PyVal → Ordering
  | .none, .none => .eq
  | .none, .int _ => .lt
  | .none, .str _ => .lt
  | .int _, .none => .gt
  | .str _, .none => .gt
  | .int i, .int j => if i < j then .lt else if j < i then .gt else .eq
  | .int _, .str _ => .lt
  | .str _, .int _ => .gt
  | .str a, .str b => strCmpL a.data b.data

/-- Python 2 `cmp` on lists: lexicographic, shorter prefix first. -/
def pyRowCmp : List PyVal → List PyVal → Ordering
  | [], [] => .eq
  | [], _ :: _ => .lt
  | _ :: _, [] => .gt
  | a :: as, b :: bs =>
    match pyValCmp a b with
    | .eq => pyRowCmp as bs
    | o => o

def rowLtB (a b : List PyVal) : Bool := pyRowCmp a b == .lt

def insertSortedRow (x : List PyVal) : List (List PyVal) → List (List PyVal)
  | [] => [x]
  | y :: ys => if rowLtB y x then y :: insertSortedRow x ys else x :: y :: ys

def sortRows : List (List PyVal) → List (List PyVal)
  | [] => []
  | x :: xs => insertSortedRow x (sortRows xs)

/-! ### Constant tables (from the source's global section) -/

def MKT_SFX_LEN : Nat := 8

def MAP_OUTPUT_SCHEMA : List String := ["fips_code", "state_abbr", "value"]

def SUMMARY_NUM_OUTPUT_SCHEMA : List String := ["month", "date", "num", "num_unadj"]

def SUMMARY_VOL_OUTPUT_SCHEMA : List String := ["month", "date", "vol", "vol_unadj"]

def YOY_SUMMARY_OUTPUT_SCHEMA : List String := ["month", "date", "yoy_num", "yoy_vol"]

def AGE : String := "age"

def INCOME : String := "income_level"

def SCORE : String := "credit_score"

def GROUP_YOY_OUTPUT_SCHEMA : List String := ["month", "date"]

def AGE_YOY_IN : List String := ["Younger than 30", "30 - 44", "45 - 64", "65 and older"]

def AGE_YOY_COLS : List String := ["younger-than-30", "30-44", "45-64", "65-and-older"]

def AGE_YOY_JSON : List String := ["Younger than 30", "30-44", "45-64", "65 and older"]

def INCOME_YOY_IN : List String := ["Low", "Moderate", "Middle", "High"]

def INCOME_YOY_COLS : List String := ["low", "moderate", "middle", "high"]

def INCOME_YOY_JSON : List String := INCOME_YOY_IN

def SCORE_YOY_IN : List String := ["Deep Subprime", "Subprime", "Near Prime", "Prime", "Superprime"]

def SCORE_YOY_COLS : List String :=
  ["deep-subprime", "subprime", "near-prime", "prime", "super-prime"]

def SCORE_YOY_JSON : List String :=
  ["Deep subprime", "Subprime", "Near-prime", "Prime", "Super-prime"]

def TEXT_FIXES : List (String × String) :=
  [("30 - 44", "Age 30-44"),
   ("45 - 64", "Age 45-64"),
   ("65 and older", "Age 65 and older"),
   ("Deep Subprime", "Deep subprime"),
   ("Near Prime", "Near-prime"),
   ("Superprime", "Super-prime")]

def GROUP_VOL_OUTPUT_SCHEMA_FRONT : List String := ["month", "date", "vol", "vol_unadj"]

def MARKET_NAMES : List (String × String) :=
  [("AUT", "auto-loans"),
   ("CRC", "credit-cards"),
   ("HCE", "heces"),
   ("HLC", "helocs"),
   ("MTG", "mortgages"),
   ("PER", "personal-loans"),
   ("RET", "retail-loans"),
   ("STU", "student-loans")]

def HTML_MKT_NAMES : List (String × (String × String)) :=
  [("AUT", ("Auto loans", "loans")),
   ("CRC", ("Credit cards", "cards")),
   ("HCE", ("HECE loans", "loans")),
   ("HLC", ("HELOCs", "HELOCs")),
   ("MTG", ("Mortgages", "mortgages")),
   ("PER", ("Personal loans", "loans")),
   ("RET", ("Retail loans", "loans")),
   ("STU", ("Student loans", "loans"))]

def HTML_DESC : List String := ["decrease", "increase"]

def FIPS_CODES : List (Int × String) :=
  [(1, "AL"), (2, "AK"), (4, "AZ"), (5, "AR"), (6, "CA"), (8, "CO"), (9, "CT"),
   (10, "DE"), (11, "DC"), (12, "FL"), (13, "GA"), (15, "HI"), (16, "ID"),
   (17, "IL"), (18, "IN"), (19, "IA"), (20, "KS"), (21, "KY"), (22, "LA"),
   (23, "ME"), (24, "MD"), (25, "MA"), (26, "MI"), (27, "MN"), (28, "MS"),
   (29, "MO"), (30, "MT"), (31, "NE"), (32, "NV"), (33, "NH"), (34, "NJ"),
   (35, "NM"), (36, "NY"), (37, "NC"), (38, "ND"), (39, "OH"), (40, "OK"),
   (41, "OR"), (42, "PA"), (44, "RI"), (45, "SC"), (46, "SD"), (47, "TN"),
   (48, "TX"), (49, "UT"), (50, "VT"), (51, "VA"), (53, "WA"), (54, "WV"),
   (55, "WI"), (56, "WY")]

/-- `find_market(input)`: first market whose 3-letter code occurs in the
input string (the iteration order of the source's dict is unspecified; the
filenames processed contain at most one code, making the choice
immaterial). -/
def find_market (input : String) : Option String :=
  (MARKET_NAMES.find? (fun p => pyIn p.1 input)).map (·.2)

/-! ### Chart-JSON formatters -/

/-- Output of the line chart formatter: `{"adjusted": [...], "unadjusted": [...]}`. -/
structure LineJson where
  adjusted : List (Int × Frac)
  unadjusted : List (Int × Frac)
deriving DecidableEq, Repr

/-- Output of the YOY bar chart formatter:
`{"Number of Loans": [...], "Dollar Volume": [...]}`. -/
structure BarJson where
  num : List (Int × Frac)
  vol : List (Int × Frac)
deriving DecidableEq, Repr

/-- The shared `try` block of the line/bar formatters: append the first
value's point, then the second's; a `ValueError` (non-numeric string) is
caught by `except ValueError: continue` after any appends already made,
while any other exception (e.g. `TypeError` from `float(None)`)
propagates. -/
def twoPointStep (ms : Int) (v1 v2 : PyVal) :
    Except PyError (List (Int × Frac) × List (Int × Frac)) :=
  match pyFloatVal v1 with
  | .error (.valueError _) => .ok ([], [])
  | .error e => .error e
  | .ok q1 =>
    match pyFloatVal v2 with
    | .error (.valueError _) => .ok ([(ms, q1)], [])
    | .error e => .error e
    | .ok q2 => .ok ([(ms, q1)], [(ms, q2)])

/-- `json_for_line_chart(data)`: the loop accumulates into the two series
left to right, so the result is the row-wise points concatenated in input
order. -/
def json_for_line_chart : List (List PyVal) → Except PyError LineJson
  | [] => .ok ⟨[], []⟩
  | row :: rest =>
    match row with
    | [_monthnum, date, val, val_unadj] => do
      let sec ← epochtimeVal date
      let step ← twoPointStep (sec * SEC_TO_MS) val val_unadj
      let tail ← json_for_line_chart rest
      .ok ⟨step.1 ++ tail.adjusted, step.2 ++ tail.unadjusted⟩
    | _ => .error (.valueError "unpack")

/-- `json_for_bar_chart(data)`: identical loop shape on the
(`yoy_num`, `yoy_vol`) columns. -/
def json_for_bar_chart : List (List PyVal) → Except PyError BarJson
  | [] => .ok ⟨[], []⟩
  | row :: rest =>
    match row with
    | [_month, date, yoy_num, yoy_vol] => do
      let sec ← epochtimeVal date
      let step ← twoPointStep (sec * SEC_TO_MS) yoy_num yoy_vol
      let tail ← json_for_bar_chart rest
      .ok ⟨step.1 ++ tail.num, step.2 ++ tail.vol⟩
    | _ => .error (.valueError "unpack")

/-- `groupname.lower().find("age ") == 0` means "starts with", and then the
first four characters of the original name are dropped. -/
def fixAgeLabel (groupname : String) : String :=
  if isPrefixL "age ".data (pyLower groupname).data then pyDropLeft groupname 4
  else groupname

/-- `json_for_group_line_chart(data)`: the output dict keyed by (fixed)
group name is modelled as a lookup function; a key is present as soon as a
row with that group name was seen (the dict entry is initialised before the
`try` block, even if both of the row's points are then dropped). -/
def json_for_group_line_chart : List (List PyVal) → Except PyError (String → Option LineJson)
  | [] => .ok (fun _ => Option.none)
  | row :: rest =>
    match row with
    | [_month, date, val, val_unadj, groupname] => do
      let sec ← epochtimeVal date
      let gname ← match groupname with
        | .str g => Except.ok (fixAgeLabel g)
        | _ => Except.error (PyError.attributeError "object has no attribute lower")
      let step ← twoPointStep (sec * SEC_TO_MS) val val_unadj
      let tail ← json_for_group_line_chart rest
      .ok (fun k =>
        if k = gname then
          match tail gname with
          | some rest0 => some ⟨step.1 ++ rest0.adjusted, step.2 ++ rest0.unadjusted⟩
          | Option.none => some ⟨step.1, step.2⟩
        else tail k)
    | _ => .error (.valueError "unpack")

/-- Inner loop of `json_for_group_bar_chart`: for each column index, try to
parse `row[2+colnum]`; a `ValueError` skips just that column
(`except ValueError: continue`), `IndexError`/`TypeError` propagate. -/
def groupBarRowCols (msec : Int) (row : List PyVal) :
    Nat → List String → Except PyError (List (String × (Int × Frac)))
  | _, [] => .ok []
  | colnum, col :: cols => do
    let contrib ← match row.get? (2 + colnum) with
      | Option.none => Except.error (PyError.indexError "list index out of range")
      | some v =>
        match pyFloatVal v with
        | .error (.valueError _) => Except.ok []
        | .error e => Except.error e
        | .ok q => Except.ok [(col, (msec, q))]
    let tail ← groupBarRowCols msec row (colnum + 1) cols
    .ok (contrib ++ tail)

def groupBarRows (val_cols : List String) :
    List (List PyVal) → Except PyError (List (String × (Int × Frac)))
  | [] => .ok []
  | row :: rest => do
    let sec ← match row.get? 1 with
      | Option.none => Except.error (PyError.indexError "list index out of range")
      | some d => epochtimeVal d
    let contrib ← groupBarRowCols (sec * SEC_TO_MS) row 0 val_cols
    let tail ← groupBarRows val_cols rest
    .ok (contrib ++ tail)

/-- Final loop of `json_for_group_bar_chart`: `tmp`'s keys are exactly
`val_cols` (all the call sites pass distinct column names), so iterating
`val_cols` positionally reproduces `val_cols.index(col_key)`; the display
name `out_names[idx]` raises `IndexError` if `out_names` is shorter. -/
def groupBarOut (contribs : List (String × (Int × Frac))) (out_names : List String) :
    Nat → List String → Except PyError (List (String × List (Int × Frac)))
  | _, [] => .ok []
  | idx, col :: cols =>
    match out_names.get? idx with
    | Option.none => .error (.indexError "list index out of range")
    | some nm => do
      let tail ← groupBarOut contribs out_names (idx + 1) cols
      .ok ((nm, (contribs.filter (fun c => c.1 == col)).map (·.2)) :: tail)

def json_for_group_bar_chart (data : List (List PyVal)) (val_cols out_names : List String) :
    Except PyError (List (String × List (Int × Frac))) := do
  let contribs ← groupBarRows val_cols data
  groupBarOut contribs out_names 0 val_cols

/-- Round to nearest integer, ties to even (the rounding used by Python's
`"{:.Nf}".format`, exact here because the values are exact decimals). -/
def roundHalfEven (q : Frac) : Int :=
  let d : Int := (q.den : Int)
  let f : Int := q.num / d
  let r2 : Int := 2 * (q.num - f * d)
  if r2 < d then f else if d < r2 then f + 1 else if f % 2 = 0 then f else f + 1

/-- Python 2's `round`: ties away from zero. -/
def pyRound (q : Frac) : Int :=
  let d : Int := (q.den : Int)
  let f : Int := q.num / d
  let r2 : Int := 2 * (q.num - f * d)
  if r2 < d then f else if d < r2 then f + 1 else if q.num < 0 then f else f + 1

def pad2Str (n : Nat) : String := if n < 10 then "0" ++ toString n else toString n

/-- `"{:0.2f}".format(x)`. -/
def pyFormat2f (x : Frac) : String :=
  let n := roundHalfEven ⟨x.num * 100, x.den⟩
  let a := n.natAbs
  (if n < 0 then "-" else "") ++ toString (a / 100) ++ "." ++ pad2Str (a % 100)

/-- The `try` body of `json_for_tile_map`:
`"{:0.2f}".format(float(value) * 100)`, with a non-numeric value passed
through unchanged (`except ValueError: pass`). -/
def tileFormatValue (value : String) : String :=
  match parseFloat value with
  | some q => pyFormat2f ⟨q.num * 100, q.den⟩
  | Option.none => value

/-- `json_for_tile_map(data)`: one `{"name": state, "value": ...}` entry
per row, in order.  Total: no input makes it raise (its rows carry string
values by construction in `process_map`). -/
def json_for_tile_map : List (String × String × String) → List (String × String)
  | [] => []
  | (_code, state, value) :: rest =>
    (state, tileFormatValue value) :: json_for_tile_map rest

/-! ### Row aggregators and per-file-type pipelines -/

/-- Per-month record of the flat (summary) aggregate. -/
structure AdjRec where
  adj : Option String
  unadj : Option String
deriving DecidableEq, Repr

/-- Per-month record of the summary YOY aggregate. -/
structure YoyRec where
  num : Option String
  vol : Option String
deriving DecidableEq, Repr

/-- The adjustment-label classification shared by `process_file_summary`
and `process_group_file`: `some true` = unadjusted slot, `some false` =
adjusted slot, `none` = unrecognized (fatal). -/
def classifyAdj (is_adj_str : String) : Option Bool :=
  if pyIn "unadjust" (pyLower is_adj_str) then some true
  else if pyIn "seasonal" (pyLower is_adj_str) then some false
  else Option.none

/-- The type-label classification of `process_yoy_summary`: `some true` =
num slot, `some false` = vol slot, `none` = malformed (fatal). -/
def classifyYoy (type_str : String) : Option Bool :=
  if pyIn "number" (pyLower type_str) then some true
  else if pyIn "volume" (pyLower type_str) then some false
  else Option.none

/-- One iteration of `process_file_summary`'s aggregation loop. -/
def summaryStep (filename : String) (proc : List (Int × AdjRec)) (row : List String) :
    Except PyError (List (Int × AdjRec)) :=
  match row with
  | [monthstr, value, is_adj_str] =>
    match parseInt monthstr with
    | Option.none => .error (.valueError "invalid literal for int()")
    | some monthnum =>
      let r := (dictGet monthnum proc).getD ⟨Option.none, Option.none⟩
      match classifyAdj is_adj_str with
      | some true => .ok (dictSet monthnum { r with unadj := some value } proc)
      | some false => .ok (dictSet monthnum { r with adj := some value } proc)
      | Option.none => .error (.unrecognizedAdjustment filename row)
  | _ => .error (.valueError "unpack")

def aggregateSummary (filename : String) (proc : List (Int × AdjRec)) :
    List (List String) → Except PyError (List (Int × AdjRec))
  | [] => .ok proc
  | row :: rest => do
    let p ← summaryStep filename proc row
    aggregateSummary filename p rest

def optVal : Option String → PyVal
  | some s => .str s
  | Option.none => .none

def pivotSummary (proc : List (Int × AdjRec)) : Except PyError (List (List PyVal)) :=
  proc.mapM (fun e => do
    let d ← actual_date e.1 .ym
    Except.ok [PyVal.int e.1, PyVal.str d, optVal e.2.adj, optVal e.2.unadj])

/-- `process_file_summary(filename, output_schema)` over the already-loaded
data rows.  The third result component models the JSON value: `some` a
line-chart dict, or `none` for the literal empty list `[]` returned when
there is no data. -/
def process_file_summary (filename : String) (output_schema : List String)
    (inputdata : List (List String)) :
    Except PyError (Bool × List (List PyVal) × Option LineJson) := do
  let proc ← aggregateSummary filename [] inputdata
  let rows ← pivotSummary proc
  let sorted := sortRows rows
  let data := (output_schema.map PyVal.str) :: sorted
  if 1 < data.length then
    let json ← json_for_line_chart sorted
    .ok (true, data, some json)
  else
    .ok (true, [], Option.none)

def process_num_summary (filename : String) (inputdata : List (List String)) :
    Except PyError (Bool × List (List PyVal) × Option LineJson) :=
  process_file_summary filename SUMMARY_NUM_OUTPUT_SCHEMA inputdata

def process_vol_summary (filename : String) (inputdata : List (List String)) :
    Except PyError (Bool × List (List PyVal) × Option LineJson) :=
  process_file_summary filename SUMMARY_VOL_OUTPUT_SCHEMA inputdata

/-- One iteration of `process_group_file`'s aggregation loop. -/
def groupStep (filename : String) (proc : List (Int × List (String × AdjRec)))
    (row : List String) : Except PyError (List (Int × List (String × AdjRec))) :=
  match row with
  | [monthstr, value, group, is_adj_str] =>
    match parseInt monthstr with
    | Option.none => .error (.valueError "invalid literal for int()")
    | some monthnum =>
      let inner := (dictGet monthnum proc).getD []
      let r := (dictGet group inner).getD ⟨Option.none, Option.none⟩
      match classifyAdj is_adj_str with
      | some true =>
        .ok (dictSet monthnum (dictSet group { r with unadj := some value } inner) proc)
      | some false =>
        .ok (dictSet monthnum (dictSet group { r with adj := some value } inner) proc)
      | Option.none => .error (.unrecognizedAdjustment filename row)
  | _ => .error (.valueError "unpack")

def aggregateGroup (filename : String) (proc : List (Int × List (String × AdjRec))) :
    List (List String) → Except PyError (List (Int × List (String × AdjRec)))
  | [] => .ok proc
  | row :: rest => do
    let p ← groupStep filename proc row
    aggregateGroup filename p rest

/-- The pivot loop of `process_group_file`: month-major, one row per
(month, group) pair, applying `TEXT_FIXES` to the group label.
(`actual_date` is evaluated once per month here; the source evaluates it
per (month, group) pair, which is indistinguishable since every created
month key holds at least one group.) -/
def pivotGroup (proc : List (Int × List (String × AdjRec))) :
    Except PyError (List (List PyVal)) := do
  let rowss ← proc.mapM (fun e => do
    let d ← actual_date e.1 .ym
    Except.ok (e.2.map (fun g =>
      [PyVal.int e.1, PyVal.str d, optVal g.2.adj, optVal g.2.unadj,
       PyVal.str ((dictGet g.1 TEXT_FIXES).getD g.1)])))
  .ok rowss.flatten

def process_group_file (filename : String) (output_schema : List String)
    (inputdata : List (List String)) :
    Except PyError (Bool × List (List PyVal) × Option (String → Option LineJson)) := do
  let proc ← aggregateGroup filename [] inputdata
  let rows ← pivotGroup proc
  let sorted := sortRows rows
  let data := (output_schema.map PyVal.str) :: sorted
  if 1 < data.length then
    let json ← json_for_group_line_chart sorted
    .ok (true, data, some json)
  else
    .ok (true, [], Option.none)

def process_group_age_vol (filename : String) (inputdata : List (List String)) :
    Except PyError (Bool × List (List PyVal) × Option (String → Option LineJson)) :=
  process_group_file filename (GROUP_VOL_OUTPUT_SCHEMA_FRONT ++ [AGE ++ "_group"]) inputdata

def process_group_income_vol (filename : String) (inputdata : List (List String)) :
    Except PyError (Bool × List (List PyVal) × Option (String → Option LineJson)) :=
  process_group_file filename (GROUP_VOL_OUTPUT_SCHEMA_FRONT ++ [INCOME ++ "_group"]) inputdata

def process_group_score_vol (filename : String) (inputdata : List (List String)) :
    Except PyError (Bool × List (List PyVal) × Option (String → Option LineJson)) :=
  process_group_file filename (GROUP_VOL_OUTPUT_SCHEMA_FRONT ++ [SCORE ++ "_group"]) inputdata

/-- One iteration of `process_group_yoy_groups`' aggregation loop: a fresh
month key is pre-populated with every legal group name mapped to `None`;
an illegal group name is fatal. -/
def groupYoyStep (filename : String) (group_names : List String)
    (proc : List (Int × List (String × Option String))) (row : List String) :
    Except PyError (List (Int × List (String × Option String))) :=
  match row with
  | [monthstr, value, group] =>
    match parseInt monthstr with
    | Option.none => .error (.valueError "invalid literal for int()")
    | some monthnum =>
      let inner := (dictGet monthnum proc).getD
        (group_names.map (fun g => (g, (Option.none : Option String))))
      if group_names.contains group then
        .ok (dictSet monthnum (dictSet group (some value) inner) proc)
      else .error (.illegalGroupName filename row)
  | _ => .error (.valueError "unpack")

def aggregateYoyGroups (filename : String) (group_names : List String)
    (proc : List (Int × List (String × Option String))) :
    List (List String) → Except PyError (List (Int × List (String × Option String)))
  | [] => .ok proc
  | row :: rest => do
    let p ← groupYoyStep filename group_names proc row
    aggregateYoyGroups filename group_names p rest

/-- The pivot loop of `process_group_yoy_groups`:
`[monthnum, actual_date(monthnum)] + [values[gname] for gname in group_names]`.
`values[gname]` is direct dict indexing; the key is always present because
every created month entry was initialised with all of `group_names`, so a
missing key is modelled as `None`. -/
def pivotYoyGroups (group_names : List String)
    (proc : List (Int × List (String × Option String))) :
    Except PyError (List (List PyVal)) :=
  proc.mapM (fun e => do
    let d ← actual_date e.1 .ym
    Except.ok ([PyVal.int e.1, PyVal.str d] ++
      group_names.map (fun g => optVal ((dictGet g e.2).getD Option.none))))

/-- `process_group_yoy_groups(filename, group_names, output_schema)`:
returns the two-component result `(cond, data)` of the source (the JSON is
produced by its callers). -/
def process_group_yoy_groups (filename : String) (group_names output_schema : List String)
    (inputdata : List (List String)) :
    Except PyError (Bool × List (List PyVal)) := do
  let proc ← aggregateYoyGroups filename group_names [] inputdata
  let rows ← pivotYoyGroups group_names proc
  let sorted := sortRows rows
  let data := (output_schema.map PyVal.str) :: sorted
  if 1 < data.length then
    .ok (true, data)
  else
    .ok (true, [])

def process_group_age_yoy (filename : String) (inputdata : List (List String)) :
    Except PyError (Bool × List (List PyVal) × Option (List (String × List (Int × Frac)))) := do
  let output_schema := GROUP_YOY_OUTPUT_SCHEMA ++ AGE_YOY_COLS.map (fun g => g ++ "_yoy")
  let res ← process_group_yoy_groups filename AGE_YOY_IN output_schema inputdata
  if 1 < res.2.length then
    let json ← json_for_group_bar_chart (res.2.drop 1) AGE_YOY_COLS AGE_YOY_JSON
    .ok (res.1, res.2, some json)
  else
    .ok (res.1, res.2, Option.none)

def process_group_income_yoy (filename : String) (inputdata : List (List String)) :
    Except PyError (Bool × List (List PyVal) × Option (List (String × List (Int × Frac)))) := do
  let output_schema := GROUP_YOY_OUTPUT_SCHEMA ++ INCOME_YOY_COLS.map (fun g => g ++ "_yoy")
  let res ← process_group_yoy_groups filename INCOME_YOY_IN output_schema inputdata
  if 1 < res.2.length then
    let json ← json_for_group_bar_chart (res.2.drop 1) INCOME_YOY_COLS INCOME_YOY_JSON
    .ok (res.1, res.2, some json)
  else
    .ok (res.1, res.2, Option.none)

def process_group_score_yoy (filename : String) (inputdata : List (List String)) :
    Except PyError (Bool × List (List PyVal) × Option (List (String × List (Int × Frac)))) := do
  let output_schema := GROUP_YOY_OUTPUT_SCHEMA ++ SCORE_YOY_COLS.map (fun g => g ++ "_yoy")
  let res ← process_group_yoy_groups filename SCORE_YOY_IN output_schema inputdata
  if 1 < res.2.length then
    let json ← json_for_group_bar_chart (res.2.drop 1) SCORE_YOY_COLS SCORE_YOY_JSON
    .ok (res.1, res.2, some json)
  else
    .ok (res.1, res.2, Option.none)

/-- One iteration of `process_yoy_summary`'s aggregation loop.  NOTE: this
version of the source has no branch for "inquiry"/"tightness" labels —
anything without "number"/"volume" raises. -/
def yoyStep (filename : String) (proc : List (Int × YoyRec)) (row : List String) :
    Except PyError (List (Int × YoyRec)) :=
  match row with
  | [monthstr, value, type_str] =>
    match parseInt monthstr with
    | Option.none => .error (.valueError "invalid literal for int()")
    | some monthnum =>
      let r := (dictGet monthnum proc).getD ⟨Option.none, Option.none⟩
      match classifyYoy type_str with
      | some true => .ok (dictSet monthnum { r with num := some value } proc)
      | some false => .ok (dictSet monthnum { r with vol := some value } proc)
      | Option.none => .error (.malformedYoyRow filename row)
  | _ => .error (.valueError "unpack")

def aggregateYoySummary (filename : String) (proc : List (Int × YoyRec)) :
    List (List String) → Except PyError (List (Int × YoyRec))
  | [] => .ok proc
  | row :: rest => do
    let p ← yoyStep filename proc row
    aggregateYoySummary filename p rest

def pivotYoySummary (proc : List (Int × YoyRec)) : Except PyError (List (List PyVal)) :=
  proc.mapM (fun e => do
    let d ← actual_date e.1 .ym
    Except.ok [PyVal.int e.1, PyVal.str d, optVal e.2.num, optVal e.2.vol])

def process_yoy_summary (filename : String) (inputdata : List (List String)) :
    Except PyError (Bool × List (List PyVal) × Option BarJson) := do
  let proc ← aggregateYoySummary filename [] inputdata
  let rows ← pivotYoySummary proc
  let sorted := sortRows rows
  let data := (YOY_SUMMARY_OUTPUT_SCHEMA.map PyVal.str) :: sorted
  if 1 < data.length then
    let json ← json_for_bar_chart sorted
    .ok (true, data, some json)
  else
    .ok (true, [], Option.none)

/-- `process_map(filename, output_schema)` over the already-loaded rows:
`[row[0], FIPS_CODES[int(row[0])], row[1]]` per row, then the tile-map
JSON from the non-header rows. -/
def process_map (output_schema : List String) (inputdata : List (List String)) :
    Except PyError (Bool × List (List PyVal) × List (String × String)) := do
  let rows ← inputdata.mapM (fun row => do
    let c0 ← match row.get? 0 with
      | some v => Except.ok v
      | Option.none => Except.error (PyError.indexError "list index out of range")
    let c1 ← match row.get? 1 with
      | some v => Except.ok v
      | Option.none => Except.error (PyError.indexError "list index out of range")
    let code ← match parseInt c0 with
      | some i => Except.ok i
      | Option.none => Except.error (PyError.valueError "invalid literal for int()")
    let abbr ← match dictGet code FIPS_CODES with
      | some a => Except.ok a
      | Option.none => Except.error (PyError.keyError c0)
    Except.ok (c0, abbr, c1))
  let data := (output_schema.map PyVal.str) ::
    rows.map (fun t => [PyVal.str t.1, PyVal.str t.2.1, PyVal.str t.2.2])
  if 1 < data.length then
    .ok (true, data, json_for_tile_map rows)
  else
    .ok (true, [], [])

/-! ### Data snapshot path (`process_snapshot_inputdata`, `human_numbers`) -/

def fracAbs (q : Frac) : Frac := ⟨(q.num.natAbs : Int), q.den⟩

/-- `floor(log10(|q|))` for nonzero `q` (exact; the source computes it with
`math.log10`, which is exact at the power-of-ten magnitude boundaries that
decide the index below). -/
def floorLog10 (q : Frac) : Int :=
  if q.den ≤ q.num.natAbs then (Nat.log 10 (q.num.natAbs / q.den) : Int)
  else -(Nat.clog 10 ((q.den + q.num.natAbs - 1) / q.num.natAbs) : Int)

/-- `max(0, min(len(numnames)-1, int(floor(log10(abs(n))/3))))`. -/
def humanIdx (n : Frac) : Nat :=
  (max 0 (min 6 (if n.num = 0 then 0 else floorLog10 n / 3))).toNat

def pad3Str (n : Nat) : String :=
  if n < 10 then "00" ++ toString n
  else if n < 100 then "0" ++ toString n
  else toString n

/-- `"{:,}"`-style comma grouping of a natural number. -/
def commaGroupNat (n : Nat) : String :=
  if n < 1000 then toString n
  else commaGroupNat (n / 1000) ++ "," ++ pad3Str (n % 1000)
decreasing_by exact Nat.div_lt_self (by omega) (by omega)

def commaGroupInt (i : Int) : String :=
  (if i < 0 then "-" else "") ++ commaGroupNat i.natAbs

/-- `"{:,.1f}".format(q)`. -/
def pyFormatComma1f (q : Frac) : String :=
  let n := roundHalfEven ⟨q.num * 10, q.den⟩
  let a := n.natAbs
  (if n < 0 then "-" else "") ++ commaGroupNat (a / 10) ++ "." ++ toString (a % 10)

/-- `"{:.1f}".format(q)`. -/
def pyFormat1f (q : Frac) : String :=
  let n := roundHalfEven ⟨q.num * 10, q.den⟩
  let a := n.natAbs
  (if n < 0 then "-" else "") ++ toString (a / 10) ++ "." ++ toString (a % 10)

/-- `human_numbers(n, decimal_places=1, whole_units_only)`: both call sites
use the default `decimal_places=1`, so the format `"{:,.1f} {}"` is inlined. -/
def human_numbers (n : Frac) (whole_units_only : Bool) : String :=
  let numnames := ["", "", "million", "billion", "trillion", "quadrillion", "quintillion"]
  let idx := humanIdx n
  if idx < 2 then
    if whole_units_only then commaGroupInt (pyRound n)
    else pyStrip (pyFormatComma1f n ++ " " ++ numnames.getD idx "")
  else
    pyFormatComma1f ⟨n.num, n.den * 10 ^ (3 * idx)⟩ ++ " " ++ numnames.getD idx ""

/-- One row of the data snapshot: parse, format and build the HTML snippet
(the `SNAPSHOT_HTML` template with its three rows of placeholders filled
in, written here as explicit concatenation). -/
def snapshotRow (row : List String) : Except PyError (Option String × String) :=
  match row with
  | [market, monthstr, origstr, volstr, yoystr] => do
    let monthnum ← match parseInt monthstr with
      | some i => Except.ok i
      | Option.none => Except.error (PyError.valueError "invalid literal for int()")
    let orig ← match parseFloat origstr with
      | some q => Except.ok q
      | Option.none => Except.error (PyError.valueError "could not convert string to float")
    let vol ← match parseFloat volstr with
      | some q => Except.ok q
      | Option.none => Except.error (PyError.valueError "could not convert string to float")
    let yoy ← match parseFloat yoystr with
      | some q => Except.ok q
      | Option.none => Except.error (PyError.valueError "could not convert string to float")
    let output_mkt := find_market market
    let _month ← actual_date monthnum .monthYear
    let descs ← match dictGet market HTML_MKT_NAMES with
      | some d => Except.ok d
      | Option.none => Except.error (PyError.keyError market)
    let orig_fmt := replaceSpaceNbsp (human_numbers orig true)
    let vol_fmt := replaceSpaceNbsp (human_numbers vol true)
    let yoy_fmt := pyFormat1f (fracAbs yoy)
    let yoy_desc := HTML_DESC.getD (if 0 < yoy.num then 1 else 0) ""
    let out_html := "<h3><b>" ++ orig_fmt ++ "</b><br>" ++ descs.1 ++
      " originated</h3>\n<h3><br><b>$" ++ vol_fmt ++ "</b><br>Dollar volume of new " ++
      descs.2 ++ "</h3>\n<h3><br><b>" ++ yoy_fmt ++ "% " ++ yoy_desc ++
      "</b><br>In year-over-year originations</h3>\n"
    Except.ok (output_mkt, out_html)
  | _ => Except.error (PyError.valueError "unpack")

def snapshotGo (acc : List (Option String × String)) :
    List (List String) → Except PyError (List (Option String × String))
  | [] => .ok acc
  | row :: rest => do
    let e ← snapshotRow row
    snapshotGo (dictSet e.1 e.2 acc) rest

/-- `process_snapshot_inputdata`: one snippet per market, keyed by
`find_market`'s result (which can be `None` for an unknown market code). -/
def process_snapshot_inputdata (inputdata : List (List String)) :
    Except PyError (List (Option String × String)) :=
  snapshotGo [] inputdata

/-! ### File-type dispatcher and batch driver -/

def SNAPSHOT_FNAME_KEY : String := "data_snapshot"

/-- `FILE_PREFIXES[filename[:MKT_SFX_LEN].lower()](filepath)`: route by the
filename with its 8-character market suffix (`"_XXX.csv"`) stripped and
lower-cased; an unknown key raises `KeyError` (which the driver does not
catch).  The chart-JSON component, which the driver only hands to
`save_json`, is projected away to give the dispatcher a uniform result
type; errors raised while producing it are preserved. -/
def dispatchFile (filename : String) (rows : List (List String)) :
    Except PyError (Bool × List (List PyVal)) :=
  let key := pyLower (pyDropRight filename MKT_SFX_LEN)
  if key == "map_data" then do
    let r ← process_map MAP_OUTPUT_SCHEMA rows
    Except.ok (r.1, r.2.1)
  else if key == "num_data" then do
    let r ← process_num_summary filename rows
    Except.ok (r.1, r.2.1)
  else if key == "vol_data" then do
    let r ← process_vol_summary filename rows
    Except.ok (r.1, r.2.1)
  else if key == "volume_data_age_group" then do
    let r ← process_group_age_vol filename rows
    Except.ok (r.1, r.2.1)
  else if key == "volume_data_income_level" then do
    let r ← process_group_income_vol filename rows
    Except.ok (r.1, r.2.1)
  else if key == "volume_data_score_level" then do
    let r ← process_group_score_vol filename rows
    Except.ok (r.1, r.2.1)
  else if key == "yoy_data_all" then do
    let r ← process_yoy_summary filename rows
    Except.ok (r.1, r.2.1)
  else if key == "yoy_data_age_group" then do
    let r ← process_group_age_yoy filename rows
    Except.ok (r.1, r.2.1)
  else if key == "yoy_data_income_level" then do
    let r ← process_group_income_yoy filename rows
    Except.ok (r.1, r.2.1)
  else if key == "yoy_data_score_level" then do
    let r ← process_group_score_yoy filename rows
    Except.ok (r.1, r.2.1)
  else Except.error (PyError.keyError key)

/-- The snapshot-snippet write loop: `os.path.join(outputpath, market, ...)`
raises when the market key is `None`; file writes themselves are I/O glue
modelled as succeeding. -/
def writeSnippets : List (Option String × String) → Except PyError Unit
  | [] => .ok ()
  | (some _, _) :: rest => writeSnippets rest
  | (Option.none, _) :: _ => .error (.attributeError "NoneType object has no attribute")

/-- The driver loop of `process_data_files` over (filename, data rows)
pairs, returning the number of successes.  A file with no recognizable
market that is not the data snapshot is recorded as a failure and skipped.
For market files, the `try` around the dispatch catches ONLY `ValueError`
and immediately re-raises it, so every exception propagates out of the
loop.  `save_csv`/`save_json` (I/O glue) return `True`, so a dispatched
file with `cond` true is a success. -/
def driverGo (succ : Nat) : List (String × List (List String)) → Except PyError Nat
  | [] => .ok succ
  | (filename, rows) :: rest =>
    match find_market filename with
    | Option.none =>
      if pyIn SNAPSHOT_FNAME_KEY filename then do
        let snippets ← process_snapshot_inputdata rows
        let _ ← writeSnippets snippets
        driverGo (succ + 1) rest
      else
        driverGo succ rest
    | some _market => do
      let r ← dispatchFile filename rows
      if r.1 then driverGo (succ + 1) rest else driverGo succ rest

/-- `process_data_files`: processes each discovered file and returns
`(len(successes), len(inputfiles))`. -/
def process_data_files (files : List (String × List (List String))) :
    Except PyError (Nat × Nat) := do
  let s ← driverGo 0 files
  .ok (s, files.length)

/-! ### Specification-side helper definitions used by the theorems below -/

def orO (a b : Option String) : Option String :=
  match a with
  | some x => some x
  | Option.none => b

/-- A structured 3-column raw row `(month_str, value, label)` as the CSV row
list it denotes. -/
def rawRow3 (r : String × String × String) : List String := [r.1, r.2.1, r.2.2]

/-- A structured 4-column raw row `(month_str, value, group, label)`. -/
def rawRow4 (r : String × String × String × String) : List String :=
  [r.1, r.2.1, r.2.2.1, r.2.2.2]

/-- A structured pivoted line-chart row `(month, date, val, val_unadj)` as
the `PyVal` row it denotes. -/
def lineRow (r : Int × String × String × String) : List PyVal :=
  [PyVal.int r.1, PyVal.str r.2.1, PyVal.str r.2.2.1, PyVal.str r.2.2.2]

/-- A structured pivoted group-line-chart row
`(month, date, val, val_unadj, groupname)`. -/
def glineRow (r : Int × String × String × String × String) : List PyVal :=
  [PyVal.int r.1, PyVal.str r.2.1, PyVal.str r.2.2.1, PyVal.str r.2.2.2.1,
   PyVal.str r.2.2.2.2]

/-- Epoch milliseconds of a machine-format date string (0 if unparseable;
only applied where parsing succeeds). -/
def msOfDate (d : String) : Int :=
  match parseDateYM d with
  | some (y, mo) => epochDays y mo * 86400 * 1000
  | Option.none => 0

/-- The adjusted series the line formatter should produce: one point per
row whose adjusted value parses. -/
def lineAdjSpec (rows : List (Int × String × String × String)) : List (Int × Frac) :=
  rows.filterMap (fun r => (parseFloat r.2.2.1).map (fun q => (msOfDate r.2.1, q)))

/-- The unadjusted series the line formatter actually produces: one point
per row whose adjusted AND unadjusted values both parse (the unadjusted
append is unreachable when `float(val)` raises first). -/
def lineUnadjSpec (rows : List (Int × String × String × String)) : List (Int × Frac) :=
  rows.filterMap (fun r =>
    match parseFloat r.2.2.1, parseFloat r.2.2.2 with
    | some _, some q => some (msOfDate r.2.1, q)
    | _, _ => Option.none)

def glineAdjSpec (g : String) (rows : List (Int × String × String × String × String)) :
    List (Int × Frac) :=
  rows.filterMap (fun r =>
    if fixAgeLabel r.2.2.2.2 = g then
      (parseFloat r.2.2.1).map (fun q => (msOfDate r.2.1, q))
    else Option.none)

def glineUnadjSpec (g : String) (rows : List (Int × String × String × String × String)) :
    List (Int × Frac) :=
  rows.filterMap (fun r =>
    if fixAgeLabel r.2.2.2.2 = g then
      match parseFloat r.2.2.1, parseFloat r.2.2.2.1 with
      | some _, some q => some (msOfDate r.2.1, q)
      | _, _ => Option.none
    else Option.none)

def glineHasGroup (g : String) (rows : List (Int × String × String × String × String)) : Bool :=
  rows.any (fun r => fixAgeLabel r.2.2.2.2 == g)

/-- The last value written to the (month, slot) cell by a sequence of
structured summary rows (`slot` true = unadjusted). -/
def summaryLastWrite (rows : List (String × String × String)) (m : Int) (slot : Bool) :
    Option String :=
  ((rows.filter (fun r => parseInt r.1 == some m && classifyAdj r.2.2 == some slot)).getLast?).map
    (·.2.1)

def hasMonth3 (rows : List (String × String × String)) (m : Int) : Bool :=
  rows.any (fun r => parseInt r.1 == some m)

/-- The month indices of structured 3-column rows, in input order. -/
def monthsOf3 (rows : List (String × String × String)) : List Int :=
  rows.filterMap (fun r => parseInt r.1)

/-- What a lookup in the flat aggregate's dictionary must return, given the
starting dictionary `p` and the processed rows. -/
def summaryCharRec (p : List (Int × AdjRec)) (rows : List (String × String × String))
    (m : Int) : Option AdjRec :=
  if hasMonth3 rows m then
    some ⟨orO (summaryLastWrite rows m false) (((dictGet m p).getD ⟨Option.none, Option.none⟩).adj),
          orO (summaryLastWrite rows m true) (((dictGet m p).getD ⟨Option.none, Option.none⟩).unadj)⟩
  else dictGet m p

/-- The month index heading an output data row. -/
def rowHeadInt (row : List PyVal) : Int :=
  match row with
  | PyVal.int m :: _ => m
  | _ => 0

/-- The machine-format date string of a month index (empty if out of
range; only applied in range). -/
def dateStr (m : Int) : String :=
  match actual_date m .ym with
  | .ok s => s
  | .error _ => ""

/-- The last value written to the (month, group) cell by a sequence of
structured YOY-group rows. -/
def yoyLastVal (rows : List (String × String × String)) (m : Int) (g : String) :
    Option String :=
  ((rows.filter (fun r => parseInt r.1 == some m && r.2.2 == g)).getLast?).map (·.2.1)

/-- The value held by group `g` of month `m` in a starting YOY-group
dictionary (None when absent). -/
def yoyOldVal (p : List (Int × List (String × Option String))) (m : Int) (g : String) :
    Option String :=
  match dictGet m p with
  | some inner =>
    match dictGet g inner with
    | some x => x
    | Option.none => Option.none
  | Option.none => Option.none

/-- The points the shared two-append `try` block emits for one row with
string values: the first series gets a point iff the first value parses,
the second series gets a point iff BOTH parse. -/
def stepAdjPts (ms : Int) (v : String) : List (Int × Frac) :=
  match parseFloat v with
  | some q => [(ms, q)]
  | Option.none => []

def stepUnadjPts (ms : Int) (v vu : String) : List (Int × Frac) :=
  match parseFloat v, parseFloat vu with
  | some _, some q => [(ms, q)]
  | _, _ => []

/-! ## Shared lemmas -/

theorem dictGet_dictSet {κ β : Type} [DecidableEq κ] (k k' : κ) (v : β) (p : List (κ × β)) :
    dictGet k' (dictSet k v p) = if k' = k then some v else dictGet k' p := by
  induction p with
  | nil => simp only [dictSet, dictGet]
  | cons e rest ih =>
    obtain ⟨k0, v0⟩ := e
    by_cases h0 : k = k0
    · subst h0
      by_cases h1 : k' = k <;> simp [dictGet, dictSet, h1]
    · by_cases h1 : k' = k0
      · subst h1
        have h2 : ¬ k' = k := fun h => h0 h.symm
        simp [dictGet, dictSet, h0, h2]
      · simp [dictGet, dictSet, h0, h1, ih]

theorem dictSet_keys_mem {κ β : Type} [DecidableEq κ] (k k' : κ) (v : β) (p : List (κ × β)) :
    k' ∈ (dictSet k v p).map Prod.fst ↔ k' = k ∨ k' ∈ p.map Prod.fst := by
  induction p with
  | nil => simp [dictSet]
  | cons e rest ih =>
    obtain ⟨k0, v0⟩ := e
    by_cases h0 : k = k0
    · subst h0
      simp [dictSet]
    · simp only [dictSet, if_neg h0, List.map_cons, List.mem_cons, ih]
      tauto

theorem dictSet_keys_nodup {κ β : Type} [DecidableEq κ] (k : κ) (v : β) (p : List (κ × β))
    (h : (p.map Prod.fst).Nodup) : ((dictSet k v p).map Prod.fst).Nodup := by
  induction p with
  | nil => simp [dictSet]
  | cons e rest ih =>
    obtain ⟨k0, v0⟩ := e
    simp only [List.map_cons, List.nodup_cons] at h
    by_cases h0 : k = k0
    · subst h0; simpa [dictSet] using h
    · simp only [dictSet, if_neg h0, List.map_cons, List.nodup_cons]
      constructor
      · intro hmem
        rcases (dictSet_keys_mem k k0 v rest).mp hmem with h1 | h1
        · exact h0 h1.symm
        · exact h.1 h1
      · exact ih h.2

theorem dictGet_of_mem_nodup {κ β : Type} [DecidableEq κ] (p : List (κ × β)) (k : κ) (v : β)
    (hmem : (k, v) ∈ p) (hnd : (p.map Prod.fst).Nodup) : dictGet k p = some v := by
  induction p with
  | nil => simp at hmem
  | cons e rest ih =>
    obtain ⟨k0, v0⟩ := e
    simp only [List.map_cons, List.nodup_cons] at hnd
    rcases List.mem_cons.mp hmem with h | h
    · cases h; simp [dictGet]
    · have hne : k ≠ k0 := by
        intro hk; subst hk
        exact hnd.1 (List.mem_map.mpr ⟨(k, v), h, rfl⟩)
      simp [dictGet, hne, ih h hnd.2]

theorem mem_of_dictGet {κ β : Type} [DecidableEq κ] (p : List (κ × β)) (k : κ) (v : β)
    (h : dictGet k p = some v) : (k, v) ∈ p := by
  induction p with
  | nil => simp [dictGet] at h
  | cons e rest ih =>
    obtain ⟨k0, v0⟩ := e
    by_cases h0 : k = k0
    · subst h0
      simp [dictGet] at h
      simp [h]
    · simp [dictGet, h0] at h
      exact List.mem_cons_of_mem _ (ih h)

theorem except_bind_ok {ε α β : Type} {e : Except ε α} {g : α → Except ε β} {r : β}
    (h : e.bind g = .ok r) : ∃ a, e = .ok a ∧ g a = .ok r := by
  cases e with
  | error x => simp [Except.bind] at h
  | ok a => exact ⟨a, rfl, h⟩

theorem mapM_eq_ok_map {ε α β : Type} (g : α → Except ε β) (h : α → β) :
    ∀ l : List α, (∀ e ∈ l, g e = .ok (h e)) → l.mapM g = .ok (l.map h) := by
  intro l
  induction l with
  | nil => intro _; rfl
  | cons x rest ih =>
    intro hall
    have hx : g x = .ok (h x) := hall x (by simp)
    have hr := ih (fun e he => hall e (by simp [he]))
    simp only [List.mapM_cons, hx, hr]
    rfl

/-! ## C6: the month codec -/

theorem digitVal_digitChar (k : Nat) (h : k < 10) : digitVal (digitChar k) = k := by
  interval_cases k <;> rfl

theorem isDigitC_digitChar (k : Nat) (h : k < 10) : isDigitC (digitChar k) = true := by
  interval_cases k <;> rfl

theorem parseDateYM_formatYM (y mo : Nat) (hy1 : 1000 ≤ y) (hy2 : y ≤ 9999)
    (hm1 : 1 ≤ mo) (hm2 : mo ≤ 12) : parseDateYM (formatYM y mo) = some (y, mo) := by
  have d1 : y / 1000 % 10 < 10 := Nat.mod_lt _ (by norm_num)
  have d2 : y / 100 % 10 < 10 := Nat.mod_lt _ (by norm_num)
  have d3 : y / 10 % 10 < 10 := Nat.mod_lt _ (by norm_num)
  have d4 : y % 10 < 10 := Nat.mod_lt _ (by norm_num)
  have d5 : mo / 10 % 10 < 10 := Nat.mod_lt _ (by norm_num)
  have d6 : mo % 10 < 10 := Nat.mod_lt _ (by norm_num)
  show parseDateYM ⟨_⟩ = _
  simp only [formatYM, pad2L, List.cons_append, List.nil_append, parseDateYM,
    isDigitC_digitChar _ d1, isDigitC_digitChar _ d2, isDigitC_digitChar _ d3,
    isDigitC_digitChar _ d4, isDigitC_digitChar _ d5, isDigitC_digitChar _ d6,
    digitVal_digitChar _ d1, digitVal_digitChar _ d2, digitVal_digitChar _ d3,
    digitVal_digitChar _ d4, digitVal_digitChar _ d5, digitVal_digitChar _ d6,
    Bool.and_true, Bool.true_and]
  have hy : y / 1000 % 10 * 1000 + y / 100 % 10 * 100 + y / 10 % 10 * 10 + y % 10 = y := by omega
  have hmo : mo / 10 % 10 * 10 + mo % 10 = mo := by omega
  rw [hy, hmo]
  have hy0 : (1:Nat) ≤ y := by omega
  simp [hy0, hm1, hm2]

/-- C6 (amended): for every month index `0 ≤ m < 96000` (so that the
computed year `2000 + m/12` fits `datetime`'s 1..9999 year range),
`actual_date(m)` formats the date with year `2000 + m/12` and month
`(m % 12) + 1`, and re-deriving (year, month) from the machine-format
string reproduces exactly those values. -/
theorem c6_actual_date_month_codec (m : Nat) (h : m < 96000) :
    actual_date (m : Int) .ym = .ok (formatYM (2000 + m / 12) (m % 12 + 1)) ∧
    parseDateYM (formatYM (2000 + m / 12) (m % 12 + 1)) = some (2000 + m / 12, m % 12 + 1) := by
  constructor
  · have hc : ((1:Int) ≤ 2000 + (m:Int) / 12 && 2000 + (m:Int) / 12 ≤ 9999) = true := by
      simp only [Bool.and_eq_true, decide_eq_true_eq]
      omega
    simp only [actual_date, BASE_YEAR, hc, if_true, renderDate]
    have h1 : (2000 + (m:Int) / 12).toNat = 2000 + m / 12 := by omega
    have h2 : ((m:Int) % 12 + 1).toNat = m % 12 + 1 := by omega
    rw [h1, h2]
  · exact parseDateYM_formatYM _ _ (by omega) (by omega) (by omega) (by omega)

/-- C6 witness: the amended theorem applied at the concrete month index
195 (April 2016). -/
theorem c6_witness :
    actual_date ((195 : Nat) : Int) .ym = .ok (formatYM (2000 + 195 / 12) (195 % 12 + 1)) ∧
    parseDateYM (formatYM (2000 + 195 / 12) (195 % 12 + 1)) =
      some (2000 + 195 / 12, 195 % 12 + 1) :=
  c6_actual_date_month_codec 195 (by decide)

/-- C6 counterexample: the claim quantifies over every `m ≥ 0`, but at
`m = 96000` the code computes year 10000, which `datetime.date` rejects
(`datetime.MAXYEAR` is 9999), so `actual_date` raises instead of returning
a formatted date. -/
theorem c6_counterexample :
    actual_date ((96000 : Nat) : Int) .ym = .error (.valueError "year is out of range") := by
  decide

/-- C9: the choropleth formatter maps each (code, region, value) row to a
`{"name": region, "value": ...}` entry where a parseable value is rendered
as `value * 100` with exactly two decimal places and a non-parseable value
is passed through unchanged; it is a total function (never fails), and the
spec's concrete examples hold: `"0.4567" ↦ "45.67"`, `"NA" ↦ "NA"`. -/
theorem c9_tile_map_formatter :
    (∀ rows : List (String × String × String),
      json_for_tile_map rows = rows.map (fun t => (t.2.1, tileFormatValue t.2.2))) ∧
    tileFormatValue "0.4567" = "45.67" ∧
    tileFormatValue "NA" = "NA" ∧
    json_for_tile_map [("01", "AL", "0.4567"), ("02", "AK", "NA")] =
      [("AL", "45.67"), ("AK", "NA")] := by
  refine ⟨?_, by decide, by decide, by decide⟩
  intro rows
  induction rows with
  | nil => rfl
  | cons r rest ih =>
    obtain ⟨a, b, c⟩ := r
    simp [json_for_tile_map, ih]

/-! ## C3 / C4: label classification and fatal classification errors -/

theorem except_bind_error {ε α β : Type} (x : ε) (g : α → Except ε β) :
    (Except.error x : Except ε α).bind g = .error x := rfl

theorem except_bind_ok_val {ε α β : Type} (a : α) (g : α → Except ε β) :
    (Except.ok a : Except ε α).bind g = g a := rfl

theorem aggregateSummary_cons (f : String) (p : List (Int × AdjRec)) (row : List String)
    (rest : List (List String)) :
    aggregateSummary f p (row :: rest) =
      (summaryStep f p row).bind (fun q => aggregateSummary f q rest) := rfl

theorem aggregateGroup_cons (f : String) (p : List (Int × List (String × AdjRec)))
    (row : List String) (rest : List (List String)) :
    aggregateGroup f p (row :: rest) =
      (groupStep f p row).bind (fun q => aggregateGroup f q rest) := rfl

theorem aggregateYoySummary_cons (f : String) (p : List (Int × YoyRec)) (row : List String)
    (rest : List (List String)) :
    aggregateYoySummary f p (row :: rest) =
      (yoyStep f p row).bind (fun q => aggregateYoySummary f q rest) := rfl

theorem aggregateSummary_error_iff (f : String) (rows : List (String × String × String)) :
    ∀ p, (∀ r ∈ rows, (parseInt r.1).isSome) →
    (((∃ e, aggregateSummary f p (rows.map rawRow3) = .error e) ↔
      ∃ r ∈ rows, classifyAdj r.2.2 = Option.none) ∧
     (∀ e, aggregateSummary f p (rows.map rawRow3) = .error e →
      ∃ r ∈ rows, classifyAdj r.2.2 = Option.none ∧ e = .unrecognizedAdjustment f (rawRow3 r))) := by
  induction rows with
  | nil =>
    intro p _
    refine ⟨⟨fun ⟨e, he⟩ => by simp [aggregateSummary] at he, fun ⟨r, hr, _⟩ => by simp at hr⟩, ?_⟩
    intro e he
    simp [aggregateSummary] at he
  | cons r rest ih =>
    intro p hwf
    obtain ⟨a, b, c⟩ := r
    obtain ⟨m, hm⟩ := Option.isSome_iff_exists.mp (hwf (a, b, c) (List.mem_cons_self _ _))
    rcases hcl : classifyAdj c with _ | b'
    · have hstep : aggregateSummary f p (((a, b, c) :: rest).map rawRow3) =
          .error (.unrecognizedAdjustment f (rawRow3 (a, b, c))) := by
        simp [List.map_cons, aggregateSummary_cons, summaryStep, rawRow3, hm, hcl,
          except_bind_error]
      refine ⟨⟨fun _ => ⟨(a, b, c), List.mem_cons_self _ _, hcl⟩, fun _ => ⟨_, hstep⟩⟩, ?_⟩
      intro e he
      rw [hstep] at he
      exact ⟨(a, b, c), List.mem_cons_self _ _, hcl, (Except.error.inj he).symm⟩
    · have hstep : ∃ p', summaryStep f p (rawRow3 (a, b, c)) = .ok p' := by
        cases hs : summaryStep f p (rawRow3 (a, b, c)) with
        | ok q => exact ⟨q, rfl⟩
        | error e => cases b' <;> simp [summaryStep, rawRow3, hm, hcl] at hs
      obtain ⟨p', hp'⟩ := hstep
      have hagg : aggregateSummary f p (((a, b, c) :: rest).map rawRow3) =
          aggregateSummary f p' (rest.map rawRow3) := by
        simp [List.map_cons, aggregateSummary_cons, hp', except_bind_ok_val]
      have ihr := ih p' (fun x hx => hwf x (List.mem_cons_of_mem _ hx))
      rw [hagg]
      constructor
      · rw [ihr.1]
        constructor
        · rintro ⟨x, hx, hclx⟩
          exact ⟨x, List.mem_cons_of_mem _ hx, hclx⟩
        · rintro ⟨x, hx, hclx⟩
          rcases List.mem_cons.mp hx with h | h
          · rw [h] at hclx
            rw [hclx] at hcl
            cases hcl
          · exact ⟨x, h, hclx⟩
      · intro e he
        obtain ⟨x, hx, hclx, hex⟩ := ihr.2 e he
        exact ⟨x, List.mem_cons_of_mem _ hx, hclx, hex⟩

theorem aggregateGroup_error_iff (f : String) (rows : List (String × String × String × String)) :
    ∀ p, (∀ r ∈ rows, (parseInt r.1).isSome) →
    (((∃ e, aggregateGroup f p (rows.map rawRow4) = .error e) ↔
      ∃ r ∈ rows, classifyAdj r.2.2.2 = Option.none) ∧
     (∀ e, aggregateGroup f p (rows.map rawRow4) = .error e →
      ∃ r ∈ rows, classifyAdj r.2.2.2 = Option.none ∧ e = .unrecognizedAdjustment f (rawRow4 r))) := by
  induction rows with
  | nil =>
    intro p _
    refine ⟨⟨fun ⟨e, he⟩ => by simp [aggregateGroup] at he, fun ⟨r, hr, _⟩ => by simp at hr⟩, ?_⟩
    intro e he
    simp [aggregateGroup] at he
  | cons r rest ih =>
    intro p hwf
    obtain ⟨a, b, g, c⟩ := r
    obtain ⟨m, hm⟩ := Option.isSome_iff_exists.mp (hwf (a, b, g, c) (List.mem_cons_self _ _))
    rcases hcl : classifyAdj c with _ | b'
    · have hstep : aggregateGroup f p (((a, b, g, c) :: rest).map rawRow4) =
          .error (.unrecognizedAdjustment f (rawRow4 (a, b, g, c))) := by
        simp [List.map_cons, aggregateGroup_cons, groupStep, rawRow4, hm, hcl,
          except_bind_error]
      refine ⟨⟨fun _ => ⟨(a, b, g, c), List.mem_cons_self _ _, hcl⟩, fun _ => ⟨_, hstep⟩⟩, ?_⟩
      intro e he
      rw [hstep] at he
      exact ⟨(a, b, g, c), List.mem_cons_self _ _, hcl, (Except.error.inj he).symm⟩
    · have hstep : ∃ p', groupStep f p (rawRow4 (a, b, g, c)) = .ok p' := by
        cases hs : groupStep f p (rawRow4 (a, b, g, c)) with
        | ok q => exact ⟨q, rfl⟩
        | error e => cases b' <;> simp [groupStep, rawRow4, hm, hcl] at hs
      obtain ⟨p', hp'⟩ := hstep
      have hagg : aggregateGroup f p (((a, b, g, c) :: rest).map rawRow4) =
          aggregateGroup f p' (rest.map rawRow4) := by
        simp [List.map_cons, aggregateGroup_cons, hp', except_bind_ok_val]
      have ihr := ih p' (fun x hx => hwf x (List.mem_cons_of_mem _ hx))
      rw [hagg]
      constructor
      · rw [ihr.1]
        constructor
        · rintro ⟨x, hx, hclx⟩
          exact ⟨x, List.mem_cons_of_mem _ hx, hclx⟩
        · rintro ⟨x, hx, hclx⟩
          rcases List.mem_cons.mp hx with h | h
          · rw [h] at hclx
            rw [hclx] at hcl
            cases hcl
          · exact ⟨x, h, hclx⟩
      · intro e he
        obtain ⟨x, hx, hclx, hex⟩ := ihr.2 e he
        exact ⟨x, List.mem_cons_of_mem _ hx, hclx, hex⟩

theorem aggregateYoySummary_error_iff (f : String) (rows : List (String × String × String)) :
    ∀ p, (∀ r ∈ rows, (parseInt r.1).isSome) →
    (((∃ e, aggregateYoySummary f p (rows.map rawRow3) = .error e) ↔
      ∃ r ∈ rows, classifyYoy r.2.2 = Option.none) ∧
     (∀ e, aggregateYoySummary f p (rows.map rawRow3) = .error e →
      ∃ r ∈ rows, classifyYoy r.2.2 = Option.none ∧ e = .malformedYoyRow f (rawRow3 r))) := by
  induction rows with
  | nil =>
    intro p _
    refine ⟨⟨fun ⟨e, he⟩ => by simp [aggregateYoySummary] at he, fun ⟨r, hr, _⟩ => by simp at hr⟩, ?_⟩
    intro e he
    simp [aggregateYoySummary] at he
  | cons r rest ih =>
    intro p hwf
    obtain ⟨a, b, c⟩ := r
    obtain ⟨m, hm⟩ := Option.isSome_iff_exists.mp (hwf (a, b, c) (List.mem_cons_self _ _))
    rcases hcl : classifyYoy c with _ | b'
    · have hstep : aggregateYoySummary f p (((a, b, c) :: rest).map rawRow3) =
          .error (.malformedYoyRow f (rawRow3 (a, b, c))) := by
        simp [List.map_cons, aggregateYoySummary_cons, yoyStep, rawRow3, hm, hcl,
          except_bind_error]
      refine ⟨⟨fun _ => ⟨(a, b, c), List.mem_cons_self _ _, hcl⟩, fun _ => ⟨_, hstep⟩⟩, ?_⟩
      intro e he
      rw [hstep] at he
      exact ⟨(a, b, c), List.mem_cons_self _ _, hcl, (Except.error.inj he).symm⟩
    · have hstep : ∃ p', yoyStep f p (rawRow3 (a, b, c)) = .ok p' := by
        cases hs : yoyStep f p (rawRow3 (a, b, c)) with
        | ok q => exact ⟨q, rfl⟩
        | error e => cases b' <;> simp [yoyStep, rawRow3, hm, hcl] at hs
      obtain ⟨p', hp'⟩ := hstep
      have hagg : aggregateYoySummary f p (((a, b, c) :: rest).map rawRow3) =
          aggregateYoySummary f p' (rest.map rawRow3) := by
        simp [List.map_cons, aggregateYoySummary_cons, hp', except_bind_ok_val]
      have ihr := ih p' (fun x hx => hwf x (List.mem_cons_of_mem _ hx))
      rw [hagg]
      constructor
      · rw [ihr.1]
        constructor
        · rintro ⟨x, hx, hclx⟩
          exact ⟨x, List.mem_cons_of_mem _ hx, hclx⟩
        · rintro ⟨x, hx, hclx⟩
          rcases List.mem_cons.mp hx with h | h
          · rw [h] at hclx
            rw [hclx] at hcl
            cases hcl
          · exact ⟨x, h, hclx⟩
      · intro e he
        obtain ⟨x, hx, hclx, hex⟩ := ihr.2 e he
        exact ⟨x, List.mem_cons_of_mem _ hx, hclx, hex⟩

/-- C4: the flat and grouped aggregators classify each row's adjustment
label by case-insensitive substring match — a label containing "unadjust"
classifies to the unadjusted slot, otherwise a label containing "seasonal"
classifies to the adjusted slot — and they raise the fatal
`UnrecognizedAdjustmentLabel` error (carrying the offending row and the
source filename) if and only if some row's label contains neither
substring. -/
theorem c4_adjustment_classification :
    (∀ lab, classifyAdj lab = Option.none ↔
      (pyIn "unadjust" (pyLower lab) = false ∧ pyIn "seasonal" (pyLower lab) = false)) ∧
    (∀ lab, pyIn "unadjust" (pyLower lab) = true → classifyAdj lab = some true) ∧
    (∀ lab, pyIn "unadjust" (pyLower lab) = false → pyIn "seasonal" (pyLower lab) = true →
      classifyAdj lab = some false) ∧
    (∀ f p ms v lab m, parseInt ms = some m → classifyAdj lab = some true →
      summaryStep f p [ms, v, lab] =
        .ok (dictSet m ⟨((dictGet m p).getD ⟨Option.none, Option.none⟩).adj, some v⟩ p)) ∧
    (∀ f p ms v lab m, parseInt ms = some m → classifyAdj lab = some false →
      summaryStep f p [ms, v, lab] =
        .ok (dictSet m ⟨some v, ((dictGet m p).getD ⟨Option.none, Option.none⟩).unadj⟩ p)) ∧
    (∀ f (rows : List (String × String × String)) p,
      (∀ r ∈ rows, (parseInt r.1).isSome) →
      (((∃ e, aggregateSummary f p (rows.map rawRow3) = .error e) ↔
        ∃ r ∈ rows, classifyAdj r.2.2 = Option.none) ∧
       (∀ e, aggregateSummary f p (rows.map rawRow3) = .error e →
        ∃ r ∈ rows, classifyAdj r.2.2 = Option.none ∧
          e = .unrecognizedAdjustment f (rawRow3 r)))) ∧
    (∀ f (rows : List (String × String × String × String)) p,
      (∀ r ∈ rows, (parseInt r.1).isSome) →
      (((∃ e, aggregateGroup f p (rows.map rawRow4) = .error e) ↔
        ∃ r ∈ rows, classifyAdj r.2.2.2 = Option.none) ∧
       (∀ e, aggregateGroup f p (rows.map rawRow4) = .error e →
        ∃ r ∈ rows, classifyAdj r.2.2.2 = Option.none ∧
          e = .unrecognizedAdjustment f (rawRow4 r)))) := by
  refine ⟨?_, ?_, ?_, ?_, ?_,
    fun f rows p h => aggregateSummary_error_iff f rows p h,
    fun f rows p h => aggregateGroup_error_iff f rows p h⟩
  · intro lab
    unfold classifyAdj
    by_cases h1 : pyIn "unadjust" (pyLower lab) <;>
      by_cases h2 : pyIn "seasonal" (pyLower lab) <;> simp [h1, h2]
  · intro lab h1
    simp [classifyAdj, h1]
  · intro lab h1 h2
    simp [classifyAdj, h1, h2]
  · intro f p ms v lab m hm hcl
    simp [summaryStep, hm, hcl]
  · intro f p ms v lab m hm hcl
    simp [summaryStep, hm, hcl]

/-- C4 witness: the error-iff applied to a concrete two-row file with one
well-classified row of each kind (no error is raised), and to a file whose
second row's label contains neither substring (the error is raised carrying
that row). -/
theorem c4_witness :
    ((((∃ e, aggregateSummary "vol_data_AUT.csv" []
          ([(("0" : String), ("1.5" : String), ("Seasonally Adjusted" : String)),
            ("0", "1.7", "Unadjusted")].map rawRow3) = .error e) ↔
        ∃ r ∈ [(("0" : String), ("1.5" : String), ("Seasonally Adjusted" : String)),
            ("0", "1.7", "Unadjusted")], classifyAdj r.2.2 = Option.none) ∧
      (∀ e, aggregateSummary "vol_data_AUT.csv" []
          ([(("0" : String), ("1.5" : String), ("Seasonally Adjusted" : String)),
            ("0", "1.7", "Unadjusted")].map rawRow3) = .error e →
        ∃ r ∈ [(("0" : String), ("1.5" : String), ("Seasonally Adjusted" : String)),
            ("0", "1.7", "Unadjusted")], classifyAdj r.2.2 = Option.none ∧
          e = .unrecognizedAdjustment "vol_data_AUT.csv" (rawRow3 r))) ∧
     (((∃ e, aggregateSummary "vol_data_MTG.csv" []
          ([(("0" : String), ("1.5" : String), ("Seasonally Adjusted" : String)),
            ("1", "2.0", "Neither")].map rawRow3) = .error e) ↔
        ∃ r ∈ [(("0" : String), ("1.5" : String), ("Seasonally Adjusted" : String)),
            ("1", "2.0", "Neither")], classifyAdj r.2.2 = Option.none) ∧
      (∀ e, aggregateSummary "vol_data_MTG.csv" []
          ([(("0" : String), ("1.5" : String), ("Seasonally Adjusted" : String)),
            ("1", "2.0", "Neither")].map rawRow3) = .error e →
        ∃ r ∈ [(("0" : String), ("1.5" : String), ("Seasonally Adjusted" : String)),
            ("1", "2.0", "Neither")], classifyAdj r.2.2 = Option.none ∧
          e = .unrecognizedAdjustment "vol_data_MTG.csv" (rawRow3 r)))) :=
  ⟨c4_adjustment_classification.2.2.2.2.2.1 "vol_data_AUT.csv" _ [] (by decide),
   c4_adjustment_classification.2.2.2.2.2.1 "vol_data_MTG.csv" _ [] (by decide)⟩

/-- C3 counterexample: the claim says a type label containing "inquiry" is
explicitly ignored without error, but this version of
`process_yoy_summary` has no such branch — a row labelled "Inquiry Index"
raises the fatal `MalformedYoyRow` error. -/
theorem c3_counterexample :
    process_yoy_summary "yoy_data_all_AUT.csv" [["0", "1.0", "Inquiry Index"]] =
      .error (.malformedYoyRow "yoy_data_all_AUT.csv" ["0", "1.0", "Inquiry Index"]) := by
  decide

/-- C3 (amended): in the summary YOY aggregate each row's type label is
classified case-insensitively — a label containing "number" writes the num
slot, otherwise a label containing "volume" writes the vol slot — and ANY
other label (including labels containing "inquiry" or "tightness", which
this version does not special-case) raises the fatal `MalformedYoyRow`
error for that file. -/
theorem c3_yoy_label_classification :
    (∀ lab, classifyYoy lab = some true ↔ pyIn "number" (pyLower lab) = true) ∧
    (∀ lab, classifyYoy lab = some false ↔
      (pyIn "number" (pyLower lab) = false ∧ pyIn "volume" (pyLower lab) = true)) ∧
    (∀ lab, classifyYoy lab = Option.none ↔
      (pyIn "number" (pyLower lab) = false ∧ pyIn "volume" (pyLower lab) = false)) ∧
    (∀ f p ms v lab m, parseInt ms = some m → classifyYoy lab = some true →
      yoyStep f p [ms, v, lab] =
        .ok (dictSet m ⟨some v, ((dictGet m p).getD ⟨Option.none, Option.none⟩).vol⟩ p)) ∧
    (∀ f p ms v lab m, parseInt ms = some m → classifyYoy lab = some false →
      yoyStep f p [ms, v, lab] =
        .ok (dictSet m ⟨((dictGet m p).getD ⟨Option.none, Option.none⟩).num, some v⟩ p)) ∧
    (∀ f (rows : List (String × String × String)) p,
      (∀ r ∈ rows, (parseInt r.1).isSome) →
      (((∃ e, aggregateYoySummary f p (rows.map rawRow3) = .error e) ↔
        ∃ r ∈ rows, classifyYoy r.2.2 = Option.none) ∧
       (∀ e, aggregateYoySummary f p (rows.map rawRow3) = .error e →
        ∃ r ∈ rows, classifyYoy r.2.2 = Option.none ∧ e = .malformedYoyRow f (rawRow3 r)))) ∧
    pyIn "inquiry" (pyLower "Inquiry Index") = true ∧
    classifyYoy "Inquiry Index" = Option.none ∧
    pyIn "tightness" (pyLower "Credit Tightness Index") = true ∧
    classifyYoy "Credit Tightness Index" = Option.none := by
  refine ⟨?_, ?_, ?_, ?_, ?_,
    fun f rows p h => aggregateYoySummary_error_iff f rows p h,
    by decide, by decide, by decide, by decide⟩
  · intro lab
    unfold classifyYoy
    by_cases h1 : pyIn "number" (pyLower lab) <;>
      by_cases h2 : pyIn "volume" (pyLower lab) <;> simp [h1, h2]
  · intro lab
    unfold classifyYoy
    by_cases h1 : pyIn "number" (pyLower lab) <;>
      by_cases h2 : pyIn "volume" (pyLower lab) <;> simp [h1, h2]
  · intro lab
    unfold classifyYoy
    by_cases h1 : pyIn "number" (pyLower lab) <;>
      by_cases h2 : pyIn "volume" (pyLower lab) <;> simp [h1, h2]
  · intro f p ms v lab m hm hcl
    simp [yoyStep, hm, hcl]
  · intro f p ms v lab m hm hcl
    simp [yoyStep, hm, hcl]

/-- C3 witness: the amended error-iff applied to a concrete file with a
"Number of Loans" row and a "Dollar Volume" row (no error), instantiated at
the empty starting dictionary. -/
theorem c3_witness :
    (((∃ e, aggregateYoySummary "yoy_data_all_AUT.csv" []
        ([(("0" : String), ("0.05" : String), ("Number of Loans" : String)),
          ("0", "0.07", "Dollar Volume")].map rawRow3) = .error e) ↔
      ∃ r ∈ [(("0" : String), ("0.05" : String), ("Number of Loans" : String)),
          ("0", "0.07", "Dollar Volume")], classifyYoy r.2.2 = Option.none) ∧
     (∀ e, aggregateYoySummary "yoy_data_all_AUT.csv" []
        ([(("0" : String), ("0.05" : String), ("Number of Loans" : String)),
          ("0", "0.07", "Dollar Volume")].map rawRow3) = .error e →
      ∃ r ∈ [(("0" : String), ("0.05" : String), ("Number of Loans" : String)),
          ("0", "0.07", "Dollar Volume")], classifyYoy r.2.2 = Option.none ∧
        e = .malformedYoyRow "yoy_data_all_AUT.csv" (rawRow3 r))) :=
  c3_yoy_label_classification.2.2.2.2.2.1 "yoy_data_all_AUT.csv" _ [] (by decide)

/-! ## C10: the success flag is always True -/

theorem process_group_yoy_groups_flag (f : String) (gns sch : List String)
    (rows : List (List String)) (r : Bool × List (List PyVal))
    (h : process_group_yoy_groups f gns sch rows = .ok r) : r.1 = true := by
  unfold process_group_yoy_groups at h
  obtain ⟨a, _, h⟩ := except_bind_ok h
  obtain ⟨b, _, h⟩ := except_bind_ok h
  dsimp only at h
  split at h <;> (injection h with h2; rw [← h2])

/-- C10: every pipeline entry point that returns (rather than raising)
returns `True` as its success flag — including on an input with zero data
rows, where the triple-returning entry points return `(True, [], [])` (the
literal empty JSON list is modelled as `[]` for the map pipeline and as
`none` for the others) and the pair-returning `process_group_yoy_groups`
returns `(True, [])`.  Failure is therefore only ever signalled by an
exception, never by a `False` success flag. -/
theorem c10_success_flag_invariant :
    (∀ sch rows r, process_map sch rows = .ok r → r.1 = true) ∧
    (∀ f sch rows r, process_file_summary f sch rows = .ok r → r.1 = true) ∧
    (∀ f gns sch rows r, process_group_yoy_groups f gns sch rows = .ok r → r.1 = true) ∧
    (∀ f rows r, process_group_age_yoy f rows = .ok r → r.1 = true) ∧
    (∀ sch, process_map sch [] = .ok (true, [], [])) ∧
    (∀ f sch, process_file_summary f sch [] = .ok (true, [], Option.none)) ∧
    (∀ f gns sch, process_group_yoy_groups f gns sch [] = .ok (true, [])) ∧
    (∀ f, process_group_age_yoy f [] = .ok (true, [], Option.none)) := by
  refine ⟨?_, ?_, fun f gns sch rows r h => process_group_yoy_groups_flag f gns sch rows r h,
    ?_, fun sch => rfl, fun f sch => rfl, fun f gns sch => rfl, fun f => rfl⟩
  · intro sch rows r h
    unfold process_map at h
    obtain ⟨a, _, h⟩ := except_bind_ok h
    dsimp only at h
    split at h <;> (injection h with h2; rw [← h2])
  · intro f sch rows r h
    unfold process_file_summary at h
    obtain ⟨a, _, h⟩ := except_bind_ok h
    obtain ⟨b, _, h⟩ := except_bind_ok h
    dsimp only at h
    split at h
    · obtain ⟨c, _, h⟩ := except_bind_ok h
      injection h with h2
      rw [← h2]
    · injection h with h2
      rw [← h2]
  · intro f rows r h
    unfold process_group_age_yoy at h
    obtain ⟨a, ha, h⟩ := except_bind_ok h
    have hflag : a.1 = true := process_group_yoy_groups_flag _ _ _ _ _ ha
    split at h
    · obtain ⟨c, _, h⟩ := except_bind_ok h
      injection h with h2
      rw [← h2]
      exact hflag
    · injection h with h2
      rw [← h2]
      exact hflag

/-- C10 witness: the flag invariant applied to a concrete map file with one
data row (whose full output is spelled out). -/
theorem c10_witness :
    ((true, [[PyVal.str "fips_code", PyVal.str "state_abbr", PyVal.str "value"],
        [PyVal.str "1", PyVal.str "AL", PyVal.str "0.5"]],
      [("AL", "50.00")]) : Bool × List (List PyVal) × List (String × String)).1 = true :=
  c10_success_flag_invariant.1 MAP_OUTPUT_SCHEMA [["1", "0.5"]] _ (by decide)

/-! ## C1: which points the line-chart formatters keep -/

theorem twoPointStep_str (ms : Int) (v vu : String) :
    twoPointStep ms (PyVal.str v) (PyVal.str vu) =
      .ok (stepAdjPts ms v, stepUnadjPts ms v vu) := by
  rcases hv : parseFloat v with _ | qv <;> rcases hvu : parseFloat vu with _ | qvu <;>
    simp [twoPointStep, pyFloatVal, stepAdjPts, stepUnadjPts, hv, hvu]

theorem lineAdjSpec_cons (m : Int) (d v vu : String)
    (rest : List (Int × String × String × String)) :
    lineAdjSpec ((m, d, v, vu) :: rest) = stepAdjPts (msOfDate d) v ++ lineAdjSpec rest := by
  rcases hv : parseFloat v with _ | qv <;>
    simp [lineAdjSpec, stepAdjPts, List.filterMap_cons, hv]

theorem lineUnadjSpec_cons (m : Int) (d v vu : String)
    (rest : List (Int × String × String × String)) :
    lineUnadjSpec ((m, d, v, vu) :: rest) =
      stepUnadjPts (msOfDate d) v vu ++ lineUnadjSpec rest := by
  rcases hv : parseFloat v with _ | qv <;> rcases hvu : parseFloat vu with _ | qvu <;>
    simp [lineUnadjSpec, stepUnadjPts, List.filterMap_cons, hv, hvu]

theorem json_for_line_chart_spec (rows : List (Int × String × String × String))
    (h : ∀ r ∈ rows, (parseDateYM r.2.1).isSome) :
    json_for_line_chart (rows.map lineRow) = .ok ⟨lineAdjSpec rows, lineUnadjSpec rows⟩ := by
  induction rows with
  | nil => rfl
  | cons r rest ih =>
    obtain ⟨m, d, v, vu⟩ := r
    obtain ⟨⟨y, mo⟩, hd⟩ := Option.isSome_iff_exists.mp (h _ (List.mem_cons_self _ _))
    have ihr := ih (fun x hx => h x (List.mem_cons_of_mem _ hx))
    have hep : epochtimeVal (PyVal.str d) = .ok (epochDays y mo * 86400) := by
      simp [epochtimeVal, epochtime, hd]
    have hms : msOfDate d = epochDays y mo * 86400 * 1000 := by
      simp [msOfDate, hd]
    simp only [List.map_cons, lineRow, json_for_line_chart, hep, except_bind_ok_val,
      twoPointStep_str, ihr, lineAdjSpec_cons, lineUnadjSpec_cons, hms, SEC_TO_MS]
    rfl

theorem glineAdjSpec_cons (g : String) (m : Int) (d v vu gn : String)
    (rest : List (Int × String × String × String × String)) :
    glineAdjSpec g ((m, d, v, vu, gn) :: rest) =
      (if fixAgeLabel gn = g then stepAdjPts (msOfDate d) v else []) ++ glineAdjSpec g rest := by
  by_cases hg : fixAgeLabel gn = g <;>
    rcases hv : parseFloat v with _ | qv <;>
      simp [glineAdjSpec, stepAdjPts, List.filterMap_cons, hg, hv]

theorem glineUnadjSpec_cons (g : String) (m : Int) (d v vu gn : String)
    (rest : List (Int × String × String × String × String)) :
    glineUnadjSpec g ((m, d, v, vu, gn) :: rest) =
      (if fixAgeLabel gn = g then stepUnadjPts (msOfDate d) v vu else []) ++
        glineUnadjSpec g rest := by
  by_cases hg : fixAgeLabel gn = g <;>
    rcases hv : parseFloat v with _ | qv <;> rcases hvu : parseFloat vu with _ | qvu <;>
      simp [glineUnadjSpec, stepUnadjPts, List.filterMap_cons, hg, hv, hvu]

theorem glineSpec_empty_of_not_hasGroup (g : String)
    (rows : List (Int × String × String × String × String))
    (h : glineHasGroup g rows = false) :
    glineAdjSpec g rows = [] ∧ glineUnadjSpec g rows = [] := by
  induction rows with
  | nil => exact ⟨rfl, rfl⟩
  | cons r rest ih =>
    obtain ⟨m, d, v, vu, gn⟩ := r
    simp only [glineHasGroup, List.any_cons, Bool.or_eq_false_iff, beq_eq_false_iff_ne,
      ne_eq] at h
    have ihr := ih (by simpa [glineHasGroup] using h.2)
    rw [glineAdjSpec_cons, glineUnadjSpec_cons, if_neg h.1, if_neg h.1]
    simp [ihr.1, ihr.2]

theorem json_for_group_line_chart_spec (rows : List (Int × String × String × String × String))
    (h : ∀ r ∈ rows, (parseDateYM r.2.1).isSome) :
    ∃ fj, json_for_group_line_chart (rows.map glineRow) = .ok fj ∧
      ∀ g, fj g = if glineHasGroup g rows then
          some ⟨glineAdjSpec g rows, glineUnadjSpec g rows⟩
        else Option.none := by
  induction rows with
  | nil => exact ⟨fun _ => Option.none, rfl, fun g => by simp [glineHasGroup]⟩
  | cons r rest ih =>
    obtain ⟨m, d, v, vu, gn⟩ := r
    obtain ⟨⟨y, mo⟩, hd⟩ := Option.isSome_iff_exists.mp (h _ (List.mem_cons_self _ _))
    obtain ⟨fj, hfj, hprop⟩ := ih (fun x hx => h x (List.mem_cons_of_mem _ hx))
    have hep : epochtimeVal (PyVal.str d) = .ok (epochDays y mo * 86400) := by
      simp [epochtimeVal, epochtime, hd]
    have hms : msOfDate d = epochDays y mo * 86400 * 1000 := by
      simp [msOfDate, hd]
    refine ⟨fun k => if k = fixAgeLabel gn then
        match fj (fixAgeLabel gn) with
        | some rest0 =>
          some ⟨stepAdjPts (epochDays y mo * 86400 * SEC_TO_MS) v ++ rest0.adjusted,
                stepUnadjPts (epochDays y mo * 86400 * SEC_TO_MS) v vu ++ rest0.unadjusted⟩
        | Option.none =>
          some ⟨stepAdjPts (epochDays y mo * 86400 * SEC_TO_MS) v,
                stepUnadjPts (epochDays y mo * 86400 * SEC_TO_MS) v vu⟩
      else fj k, ?_, ?_⟩
    · simp only [List.map_cons, glineRow, json_for_group_line_chart, hep, except_bind_ok_val,
        twoPointStep_str, hfj]
      rfl
    · intro g
      by_cases hg : g = fixAgeLabel gn
      · dsimp only
        rw [if_pos hg, hg]
        have hhead : glineHasGroup (fixAgeLabel gn) ((m, d, v, vu, gn) :: rest) = true := by
          simp [glineHasGroup]
        rw [hhead, if_pos rfl, glineAdjSpec_cons, glineUnadjSpec_cons, if_pos rfl, if_pos rfl,
          hprop (fixAgeLabel gn)]
        by_cases hrest : glineHasGroup (fixAgeLabel gn) rest = true
        · rw [if_pos hrest]
          simp [hms, SEC_TO_MS]
        · have hrest' : glineHasGroup (fixAgeLabel gn) rest = false := by
            cases hx : glineHasGroup (fixAgeLabel gn) rest
            · rfl
            · exact absurd hx hrest
          rw [if_neg (by simp [hrest'])]
          obtain ⟨he1, he2⟩ := glineSpec_empty_of_not_hasGroup _ rest hrest'
          simp [hms, SEC_TO_MS, he1, he2]
      · have hb : (fixAgeLabel gn == g) = false :=
          beq_eq_false_iff_ne.mpr (fun hc => hg hc.symm)
        have hany : glineHasGroup g ((m, d, v, vu, gn) :: rest) = glineHasGroup g rest := by
          simp only [glineHasGroup, List.any_cons, hb, Bool.false_or]
        have hne : ¬ (fixAgeLabel gn = g) := fun hc => hg hc.symm
        dsimp only
        rw [if_neg hg, hprop g, hany, glineAdjSpec_cons, glineUnadjSpec_cons,
          if_neg hne, if_neg hne]
        simp

/-- C1 (amended): for pivoted data rows with string value columns and
parseable dates, the line-chart formatters keep a row's ADJUSTED point iff
its adjusted value parses as a number, but keep the row's UNADJUSTED point
iff BOTH the adjusted and the unadjusted values parse: the `try` block
evaluates `float(val)` before any append, so a non-numeric unadjusted
value drops only the unadjusted point (the adjusted one having already
been appended), while a non-numeric adjusted value drops BOTH of that
row's points.  Likewise per group (with the "Age " display fix applied to
the key) for the group line chart. -/
theorem c1_line_chart_point_dropping :
    (∀ rows : List (Int × String × String × String),
      (∀ r ∈ rows, (parseDateYM r.2.1).isSome) →
      json_for_line_chart (rows.map lineRow) = .ok ⟨lineAdjSpec rows, lineUnadjSpec rows⟩) ∧
    (∀ rows : List (Int × String × String × String × String),
      (∀ r ∈ rows, (parseDateYM r.2.1).isSome) →
      ∃ fj, json_for_group_line_chart (rows.map glineRow) = .ok fj ∧
        ∀ g, fj g = if glineHasGroup g rows then
            some ⟨glineAdjSpec g rows, glineUnadjSpec g rows⟩
          else Option.none) :=
  ⟨fun rows h => json_for_line_chart_spec rows h,
   fun rows h => json_for_group_line_chart_spec rows h⟩

/-- C1 counterexample: the claim says a row whose adjusted value is
non-numeric still contributes its unadjusted point, but on the row
`[0, "2000-01", "NA", "3.0"]` — whose unadjusted value "3.0" parses
perfectly well — the formatter returns BOTH series empty: `float("NA")`
raises before either append, and `except ValueError: continue` abandons
the whole row. -/
theorem c1_counterexample :
    json_for_line_chart [[PyVal.int 0, PyVal.str "2000-01", PyVal.str "NA", PyVal.str "3.0"]] =
      .ok ⟨[], []⟩ ∧
    parseFloat "3.0" = some ⟨30, 10⟩ :=
  ⟨by decide, by decide⟩

/-- C1 witness: the amended theorem applied to the spec's own example rows
`[(0, "2000-01", "1.5", "NA"), (1, "2000-02", "2.0", "3.0")]`. -/
theorem c1_witness :
    json_for_line_chart
        ([((0 : Int), "2000-01", "1.5", "NA"), (1, "2000-02", "2.0", "3.0")].map lineRow) =
      .ok ⟨lineAdjSpec [((0 : Int), "2000-01", "1.5", "NA"), (1, "2000-02", "2.0", "3.0")],
           lineUnadjSpec [((0 : Int), "2000-01", "1.5", "NA"), (1, "2000-02", "2.0", "3.0")]⟩ :=
  c1_line_chart_point_dropping.1 _ (by decide)

/-! ## C2: what the driver does with a failing file -/

/-- C2 counterexample: a batch of two files where the first (a volume
summary with an unrecognized adjustment label) raises.  The claim says the
driver records the failure and processes the remaining files, but
`process_data_files` propagates the exception — its `except ValueError`
handler catches nothing but `ValueError` and immediately re-raises even
that — so the whole batch aborts and the second (perfectly valid) file is
never processed. -/
theorem c2_counterexample :
    process_data_files [("vol_data_AUT.csv", [["0", "1.23", "Neither"]]),
      ("map_data_CRC.csv", [["1", "0.5"]])] =
    .error (.unrecognizedAdjustment "vol_data_AUT.csv" ["0", "1.23", "Neither"]) := by
  decide

/-- C2 (amended): a failure while processing a market file is NOT contained
by the driver: the `try` around the dispatch catches only `ValueError` and
re-raises it (and the classification errors are `TypeError`s, the unknown
prefix a `KeyError`, none of them caught), so any dispatch error aborts the
whole batch with that exception and the remaining files are never
processed.  Only a file with no recognizable market in its name that is
not the data snapshot is recorded as a failure and skipped. -/
theorem c2_driver_aborts_on_file_failure :
    (∀ name rows rest mkt e, find_market name = some mkt →
      dispatchFile name rows = .error e →
      process_data_files ((name, rows) :: rest) = .error e) ∧
    (∀ name rows rest, find_market name = Option.none →
      pyIn SNAPSHOT_FNAME_KEY name = false →
      process_data_files ((name, rows) :: rest) =
        (process_data_files rest).map (fun t => (t.1, t.2 + 1))) := by
  constructor
  · intro name rows rest mkt e hmkt hdisp
    simp only [process_data_files, driverGo, hmkt, hdisp]
    rfl
  · intro name rows rest hmkt hsnap
    cases hdr : driverGo 0 rest with
    | error err =>
      simp only [process_data_files, driverGo, hmkt, hsnap, hdr]
      rfl
    | ok s =>
      simp only [process_data_files, driverGo, hmkt, hsnap, hdr]
      rfl

/-- C2 witness: the amended abort behavior applied to a concrete batch
whose first file raises an `UnrecognizedAdjustmentLabel` error. -/
theorem c2_witness :
    process_data_files [("num_data_MTG.csv", [["0", "5", "weird"]]),
      ("map_data_CRC.csv", [["1", "0.5"]])] =
    .error (.unrecognizedAdjustment "num_data_MTG.csv" ["0", "5", "weird"]) :=
  c2_driver_aborts_on_file_failure.1 "num_data_MTG.csv" [["0", "5", "weird"]]
    [("map_data_CRC.csv", [["1", "0.5"]])] "mortgages"
    (.unrecognizedAdjustment "num_data_MTG.csv" ["0", "5", "weird"])
    (by decide) (by decide)

/-! ## C7 / C8: characterising the flat aggregate -/

theorem orO_none (x : Option String) : orO x Option.none = x := by
  cases x <;> rfl

theorem orO_assoc (x y z : Option String) : orO (orO x y) z = orO x (orO y z) := by
  cases x <;> rfl

theorem hasMonth3_cons (r : String × String × String) (rest : List (String × String × String))
    (m : Int) :
    hasMonth3 (r :: rest) m = ((parseInt r.1 == some m) || hasMonth3 rest m) := by
  simp [hasMonth3, List.any_cons]

theorem summaryLastWrite_cons (r : String × String × String)
    (rest : List (String × String × String)) (m : Int) (slot : Bool) :
    summaryLastWrite (r :: rest) m slot =
      orO (summaryLastWrite rest m slot)
        (if (parseInt r.1 == some m && classifyAdj r.2.2 == some slot) = true
         then some r.2.1 else Option.none) := by
  unfold summaryLastWrite
  rw [List.filter_cons]
  by_cases hp : (parseInt r.1 == some m && classifyAdj r.2.2 == some slot) = true
  · rw [if_pos hp, if_pos hp]
    cases hf : rest.filter
        (fun x => parseInt x.1 == some m && classifyAdj x.2.2 == some slot) with
    | nil => simp [List.getLast?, orO]
    | cons x xs =>
      rw [List.getLast?_cons_cons]
      cases hlast : (x :: xs).getLast? with
      | none => exact absurd (List.getLast?_eq_none_iff.mp hlast) (by simp)
      | some y => simp [hlast, orO]
  · rw [if_neg hp, if_neg hp, orO_none]

theorem summaryLastWrite_eq_none (rows : List (String × String × String)) (m : Int)
    (slot : Bool) (h : hasMonth3 rows m = false) :
    summaryLastWrite rows m slot = Option.none := by
  unfold summaryLastWrite
  have hf : rows.filter (fun x => parseInt x.1 == some m && classifyAdj x.2.2 == some slot)
      = [] := by
    rw [List.filter_eq_nil_iff]
    intro x hx
    simp only [hasMonth3, List.any_eq_false] at h
    simp [h x hx]
  rw [hf]
  rfl

theorem summaryCharRec_nil_left (rows : List (String × String × String)) (m : Int) :
    summaryCharRec [] rows m =
      (if hasMonth3 rows m then
        some ⟨summaryLastWrite rows m false, summaryLastWrite rows m true⟩
      else Option.none) := by
  unfold summaryCharRec
  by_cases h : hasMonth3 rows m <;> simp [h, dictGet, orO_none]

theorem aggregateSummary_char (f : String) (rows : List (String × String × String)) :
    ∀ p, (∀ r ∈ rows, (parseInt r.1).isSome ∧ (classifyAdj r.2.2).isSome) →
    ∃ q, aggregateSummary f p (rows.map rawRow3) = .ok q ∧
      ∀ m, dictGet m q = summaryCharRec p rows m := by
  induction rows with
  | nil =>
    intro p _
    exact ⟨p, rfl, fun m => by simp [summaryCharRec, hasMonth3]⟩
  | cons r rest ih =>
    intro p hwf
    obtain ⟨a, b, c⟩ := r
    obtain ⟨m0, hm0⟩ :=
      Option.isSome_iff_exists.mp (hwf _ (List.mem_cons_self _ _)).1
    obtain ⟨cl, hcl⟩ :=
      Option.isSome_iff_exists.mp (hwf _ (List.mem_cons_self _ _)).2
    have hstep : summaryStep f p (rawRow3 (a, b, c)) =
        .ok (dictSet m0
          (if cl then ⟨((dictGet m0 p).getD ⟨Option.none, Option.none⟩).adj, some b⟩
           else ⟨some b, ((dictGet m0 p).getD ⟨Option.none, Option.none⟩).unadj⟩) p) := by
      cases cl <;> simp [summaryStep, rawRow3, hm0, hcl]
    obtain ⟨q, hq, hchar⟩ := ih
      (dictSet m0
        (if cl then ⟨((dictGet m0 p).getD ⟨Option.none, Option.none⟩).adj, some b⟩
         else ⟨some b, ((dictGet m0 p).getD ⟨Option.none, Option.none⟩).unadj⟩) p)
      (fun x hx => hwf x (List.mem_cons_of_mem _ hx))
    refine ⟨q, ?_, ?_⟩
    · rw [List.map_cons, aggregateSummary_cons, hstep, except_bind_ok_val]
      exact hq
    · intro m
      rw [hchar m]
      unfold summaryCharRec
      rw [dictGet_dictSet]
      by_cases hm : m = m0
      · subst hm
        have hhead : (parseInt (a, b, c).1 == some m) = true := by simp [hm0]
        rw [hasMonth3_cons]
        rw [hhead, Bool.true_or, if_pos rfl]
        have hlwf := summaryLastWrite_cons (a, b, c) rest m false
        have hlwt := summaryLastWrite_cons (a, b, c) rest m true
        by_cases hrest : hasMonth3 rest m = true
        · rw [if_pos hrest]
          rw [hlwf, hlwt]
          cases cl <;>
            cases hLf : summaryLastWrite rest m false <;>
              cases hLt : summaryLastWrite rest m true <;>
                simp [hm0, hcl, orO]
        · rw [if_neg hrest]
          have hf := summaryLastWrite_eq_none rest m false (by
            cases hx : hasMonth3 rest m
            · rfl
            · exact absurd hx hrest)
          have ht := summaryLastWrite_eq_none rest m true (by
            cases hx : hasMonth3 rest m
            · rfl
            · exact absurd hx hrest)
          rw [hlwf, hlwt, hf, ht]
          cases cl <;>
            simp [hm0, hcl, orO]
      · have hne : (parseInt (a, b, c).1 == some m) = false := by
          simp [hm0]
          intro hcontra
          exact hm hcontra.symm
        rw [hasMonth3_cons, hne, Bool.false_or, if_neg hm]
        have hlwf := summaryLastWrite_cons (a, b, c) rest m false
        have hlwt := summaryLastWrite_cons (a, b, c) rest m true
        rw [hlwf, hlwt]
        simp only [hne, Bool.false_and, if_neg (by simp : ¬ (false = true)), orO_none]

theorem summaryLastWrite_perm (l1 l2 : List (String × String × String))
    (hperm : l1.Perm l2)
    (hcount : ∀ m slot, (l1.filter
      (fun r => parseInt r.1 == some m && classifyAdj r.2.2 == some slot)).length ≤ 1)
    (m : Int) (slot : Bool) :
    summaryLastWrite l1 m slot = summaryLastWrite l2 m slot := by
  have hp := hperm.filter
    (fun r => parseInt r.1 == some m && classifyAdj r.2.2 == some slot)
  have hlen := hcount m slot
  have heq : l1.filter (fun r => parseInt r.1 == some m && classifyAdj r.2.2 == some slot) =
      l2.filter (fun r => parseInt r.1 == some m && classifyAdj r.2.2 == some slot) := by
    cases hf : l1.filter
        (fun r => parseInt r.1 == some m && classifyAdj r.2.2 == some slot) with
    | nil =>
      rw [hf] at hp
      exact hp.nil_eq
    | cons x xs =>
      rw [hf] at hp hlen
      cases xs with
      | nil => exact (List.perm_singleton.mp hp.symm).symm
      | cons y ys => simp at hlen
  unfold summaryLastWrite
  rw [heq]

theorem hasMonth3_perm (l1 l2 : List (String × String × String)) (hperm : l1.Perm l2)
    (m : Int) : hasMonth3 l1 m = hasMonth3 l2 m := by
  unfold hasMonth3
  cases h2 : l2.any (fun r => parseInt r.1 == some m) with
  | true =>
    obtain ⟨x, hx, hpx⟩ := List.any_eq_true.mp h2
    exact List.any_eq_true.mpr ⟨x, hperm.mem_iff.mpr hx, hpx⟩
  | false =>
    cases h1 : l1.any (fun r => parseInt r.1 == some m) with
    | false => rfl
    | true =>
      obtain ⟨x, hx, hpx⟩ := List.any_eq_true.mp h1
      rw [← h2]
      exact (List.any_eq_true.mpr ⟨x, hperm.mem_iff.mp hx, hpx⟩).symm

/-- C7: (i) for input files in which every row is well-formed and each
(month, slot) cell is written at most once, the flat aggregate produces the
same aggregated record for every month under any permutation of the input
rows; (ii) a later row for an existing month overwrites only the sub-field
matching its classification — an "unadjust" row sets `unadj` and keeps
`adj`, a "seasonal" row sets `adj` and keeps `unadj` — and (iii) records of
all other months are left unchanged by such an update. -/
theorem c7_aggregation_order_invariance :
    (∀ f (l1 l2 : List (String × String × String)), l1.Perm l2 →
      (∀ r ∈ l1, (parseInt r.1).isSome ∧ (classifyAdj r.2.2).isSome) →
      (∀ m slot, (l1.filter
        (fun r => parseInt r.1 == some m && classifyAdj r.2.2 == some slot)).length ≤ 1) →
      ∃ q1 q2, aggregateSummary f [] (l1.map rawRow3) = .ok q1 ∧
        aggregateSummary f [] (l2.map rawRow3) = .ok q2 ∧
        ∀ m, dictGet m q1 = dictGet m q2) ∧
    (∀ f p ms v lab m, parseInt ms = some m → classifyAdj lab = some true →
      summaryStep f p [ms, v, lab] =
        .ok (dictSet m ⟨((dictGet m p).getD ⟨Option.none, Option.none⟩).adj, some v⟩ p)) ∧
    (∀ f p ms v lab m, parseInt ms = some m → classifyAdj lab = some false →
      summaryStep f p [ms, v, lab] =
        .ok (dictSet m ⟨some v, ((dictGet m p).getD ⟨Option.none, Option.none⟩).unadj⟩ p)) ∧
    (∀ (p : List (Int × AdjRec)) m rec0 m', m' ≠ m →
      dictGet m' (dictSet m rec0 p) = dictGet m' p) := by
  refine ⟨?_, ?_, ?_, ?_⟩
  · intro f l1 l2 hperm hwf hcount
    obtain ⟨q1, hq1, hchar1⟩ := aggregateSummary_char f l1 [] hwf
    obtain ⟨q2, hq2, hchar2⟩ := aggregateSummary_char f l2 []
      (fun r hr => hwf r (hperm.mem_iff.mpr hr))
    refine ⟨q1, q2, hq1, hq2, ?_⟩
    intro m
    rw [hchar1 m, hchar2 m, summaryCharRec_nil_left, summaryCharRec_nil_left,
      hasMonth3_perm l1 l2 hperm m,
      summaryLastWrite_perm l1 l2 hperm hcount m false,
      summaryLastWrite_perm l1 l2 hperm hcount m true]
  · intro f p ms v lab m hm hcl
    simp [summaryStep, hm, hcl]
  · intro f p ms v lab m hm hcl
    simp [summaryStep, hm, hcl]
  · intro p m rec0 m' hne
    rw [dictGet_dictSet, if_neg hne]

/-- C7 witness: order invariance applied to a concrete two-row file (one
adjusted, one unadjusted row for month 0) and its reversal. -/
theorem c7_witness :
    ∃ q1 q2,
      aggregateSummary "vol_data_AUT.csv" []
        ([(("0" : String), ("1.5" : String), ("Seasonally Adjusted" : String)),
          ("0", "1.7", "Unadjusted")].map rawRow3) = .ok q1 ∧
      aggregateSummary "vol_data_AUT.csv" []
        ([(("0" : String), ("1.7" : String), ("Unadjusted" : String)),
          ("0", "1.5", "Seasonally Adjusted")].map rawRow3) = .ok q2 ∧
      ∀ m, dictGet m q1 = dictGet m q2 :=
  c7_aggregation_order_invariance.1 "vol_data_AUT.csv"
    [("0", "1.5", "Seasonally Adjusted"), ("0", "1.7", "Unadjusted")]
    [("0", "1.7", "Unadjusted"), ("0", "1.5", "Seasonally Adjusted")]
    (List.Perm.swap _ _ _) (by decide)
    (by
      intro m slot
      by_cases hm : m = 0
      · subst hm
        cases slot <;> decide
      · have h0 : (parseInt "0" == some m) = false := by
          have hp : parseInt "0" = some 0 := by decide
          rw [hp]
          simp only [beq_eq_false_iff_ne, ne_eq, Option.some.injEq]
          exact fun hc => hm hc.symm
        simp [List.filter_cons, h0])

/-! ### Order properties of the row comparison (for sortedness of the pivot) -/

theorem strCmpL_eq_iff (s : List Char) : ∀ t, strCmpL s t = .eq ↔ s = t := by
  induction s with
  | nil => intro t; cases t <;> simp [strCmpL]
  | cons a as ih =>
    intro t
    cases t with
    | nil => simp [strCmpL]
    | cons b bs =>
      by_cases h1 : a < b
      · simp only [strCmpL, if_pos h1]
        constructor
        · intro h; cases h
        · rintro h
          injection h with h2 h3
          exact absurd (h2 ▸ h1) (lt_irrefl _)
      · by_cases h2 : b < a
        · simp only [strCmpL, if_neg h1, if_pos h2]
          constructor
          · intro h; cases h
          · rintro h
            injection h with h3 h4
            exact absurd (h3 ▸ h2) (lt_irrefl _)
        · have hab : a = b := le_antisymm (not_lt.mp h2) (not_lt.mp h1)
          subst hab
          simp only [strCmpL, if_neg h1, if_neg h2, ih bs, List.cons.injEq, true_and]

theorem strCmpL_swap (s : List Char) : ∀ t, (strCmpL s t).swap = strCmpL t s := by
  induction s with
  | nil => intro t; cases t <;> rfl
  | cons a as ih =>
    intro t
    cases t with
    | nil => rfl
    | cons b bs =>
      by_cases h1 : a < b
      · have h2 : ¬ b < a := lt_asymm h1
        simp [strCmpL, h1, h2, Ordering.swap]
      · by_cases h2 : b < a
        · simp [strCmpL, h1, h2, Ordering.swap]
        · simp [strCmpL, h1, h2, ih bs]

theorem strCmpL_lt_trans (s : List Char) :
    ∀ t u, strCmpL s t = .lt → strCmpL t u = .lt → strCmpL s u = .lt := by
  induction s with
  | nil =>
    intro t u h1 h2
    cases t with
    | nil => exact h2
    | cons b bs =>
      cases u with
      | nil => simp [strCmpL] at h2
      | cons c cs => rfl
  | cons a as ih =>
    intro t u h1 h2
    cases t with
    | nil => simp [strCmpL] at h1
    | cons b bs =>
      cases u with
      | nil => simp [strCmpL] at h2
      | cons c cs =>
        by_cases hab : a < b
        · by_cases hbc : b < c
          · simp [strCmpL, lt_trans hab hbc]
          · by_cases hcb : c < b
            · rw [strCmpL, if_neg hbc, if_pos hcb] at h2
              cases h2
            · have : b = c := le_antisymm (not_lt.mp hcb) (not_lt.mp hbc)
              subst this
              simp [strCmpL, hab]
        · by_cases hba : b < a
          · rw [strCmpL, if_neg hab, if_pos hba] at h1
            cases h1
          · have : a = b := le_antisymm (not_lt.mp hba) (not_lt.mp hab)
            subst this
            rw [strCmpL, if_neg hab, if_neg hba] at h1
            by_cases hbc : a < c
            · simp [strCmpL, hbc]
            · by_cases hcb : c < a
              · rw [strCmpL, if_neg hbc, if_pos hcb] at h2
                cases h2
              · have : a = c := le_antisymm (not_lt.mp hcb) (not_lt.mp hbc)
                subst this
                rw [strCmpL, if_neg hbc, if_neg hcb] at h2 ⊢
                exact ih bs cs h1 h2
theorem pyValCmp_eq_iff (a b : PyVal) : pyValCmp a b = .eq ↔ a = b := by
  cases a with
  | none => cases b <;> simp [pyValCmp]
  | int i =>
    cases b with
    | none => simp [pyValCmp]
    | str s => simp [pyValCmp]
    | int j =>
      simp only [pyValCmp, PyVal.int.injEq]
      constructor
      · intro h
        by_cases h1 : i < j
        · rw [if_pos h1] at h; cases h
        · by_cases h2 : j < i
          · rw [if_neg h1, if_pos h2] at h; cases h
          · omega
      · intro h
        subst h
        simp
  | str s =>
    cases b with
    | none => simp [pyValCmp]
    | int j => simp [pyValCmp]
    | str t =>
      simp only [pyValCmp, PyVal.str.injEq]
      rw [strCmpL_eq_iff]
      constructor
      · intro h
        cases s with | mk ds =>
        cases t with | mk dt =>
        exact congrArg String.mk h
      · intro h
        rw [h]

theorem pyValCmp_swap (a b : PyVal) : (pyValCmp a b).swap = pyValCmp b a := by
  cases a with
  | none => cases b <;> rfl
  | int i =>
    cases b with
    | none => rfl
    | str s => rfl
    | int j =>
      rcases lt_trichotomy i j with h | h | h
      · have h2 : ¬ j < i := lt_asymm h
        simp [pyValCmp, h, h2, Ordering.swap]
      · subst h
        simp [pyValCmp, lt_irrefl, Ordering.swap]
      · have h2 : ¬ i < j := lt_asymm h
        simp [pyValCmp, h, h2, Ordering.swap]
  | str s =>
    cases b with
    | none => rfl
    | int j => rfl
    | str t => exact strCmpL_swap s.data t.data

theorem pyValCmp_lt_trans (a b c : PyVal) (h1 : pyValCmp a b = .lt) (h2 : pyValCmp b c = .lt) :
    pyValCmp a c = .lt := by
  cases a with
  | none => cases b <;> cases c <;> simp_all [pyValCmp]
  | int i =>
    cases b with
    | none => simp [pyValCmp] at h1
    | str s =>
      cases c with
      | none => simp [pyValCmp] at h2
      | int k => simp [pyValCmp] at h2
      | str t => rfl
    | int j =>
      cases c with
      | none => simp [pyValCmp] at h2
      | str t => rfl
      | int k =>
        have hij : i < j := by
          by_cases h : i < j
          · exact h
          · exfalso
            by_cases h' : j < i <;> simp [pyValCmp, h, h'] at h1
        have hjk : j < k := by
          by_cases h : j < k
          · exact h
          · exfalso
            by_cases h' : k < j <;> simp [pyValCmp, h, h'] at h2
        simp [pyValCmp, lt_trans hij hjk]
  | str s =>
    cases b with
    | none => simp [pyValCmp] at h1
    | int j => simp [pyValCmp] at h1
    | str t =>
      cases c with
      | none => simp [pyValCmp] at h2
      | int k => simp [pyValCmp] at h2
      | str u => exact strCmpL_lt_trans _ _ _ h1 h2

theorem pyRowCmp_eq_iff (a : List PyVal) : ∀ b, pyRowCmp a b = .eq ↔ a = b := by
  induction a with
  | nil => intro b; cases b <;> simp [pyRowCmp]
  | cons x xs ih =>
    intro b
    cases b with
    | nil => simp [pyRowCmp]
    | cons y ys =>
      simp only [pyRowCmp]
      cases hc : pyValCmp x y with
      | eq =>
        have hxy : x = y := (pyValCmp_eq_iff x y).mp hc
        subst hxy
        simp [ih ys]
      | lt =>
        constructor
        · intro h; cases h
        · intro h
          injection h with h1 h2
          subst h1
          rw [(pyValCmp_eq_iff x x).mpr rfl] at hc
          cases hc
      | gt =>
        constructor
        · intro h; cases h
        · intro h
          injection h with h1 h2
          subst h1
          rw [(pyValCmp_eq_iff x x).mpr rfl] at hc
          cases hc

theorem pyRowCmp_swap (a : List PyVal) : ∀ b, (pyRowCmp a b).swap = pyRowCmp b a := by
  induction a with
  | nil => intro b; cases b <;> rfl
  | cons x xs ih =>
    intro b
    cases b with
    | nil => rfl
    | cons y ys =>
      simp only [pyRowCmp]
      cases hc : pyValCmp x y with
      | eq =>
        have h2 : pyValCmp y x = .eq := by rw [← pyValCmp_swap, hc]; rfl
        rw [h2]
        exact ih ys
      | lt =>
        have h2 : pyValCmp y x = .gt := by rw [← pyValCmp_swap, hc]; rfl
        rw [h2]
        rfl
      | gt =>
        have h2 : pyValCmp y x = .lt := by rw [← pyValCmp_swap, hc]; rfl
        rw [h2]
        rfl

theorem pyRowCmp_lt_trans (a : List PyVal) :
    ∀ b c, pyRowCmp a b = .lt → pyRowCmp b c = .lt → pyRowCmp a c = .lt := by
  induction a with
  | nil =>
    intro b c h1 h2
    cases b with
    | nil => exact h2
    | cons y ys =>
      cases c with
      | nil => simp [pyRowCmp] at h2
      | cons z zs => rfl
  | cons x xs ih =>
    intro b c h1 h2
    cases b with
    | nil => simp [pyRowCmp] at h1
    | cons y ys =>
      cases c with
      | nil => simp [pyRowCmp] at h2
      | cons z zs =>
        simp only [pyRowCmp] at h1 h2 ⊢
        cases hxy : pyValCmp x y with
        | gt => simp only [hxy] at h1; cases h1
        | lt =>
          cases hyz : pyValCmp y z with
          | gt => simp only [hyz] at h2; cases h2
          | lt => simp only [pyValCmp_lt_trans x y z hxy hyz]
          | eq =>
            have hyz' : y = z := (pyValCmp_eq_iff _ _).mp hyz
            subst hyz'
            simp only [hxy]
        | eq =>
          have hxy' : x = y := (pyValCmp_eq_iff _ _).mp hxy
          subst hxy'
          simp only [hxy] at h1
          cases hyz : pyValCmp x z with
          | gt => simp only [hyz] at h2; cases h2
          | lt => simp only [hyz]
          | eq =>
            simp only [hyz] at h2 ⊢
            exact ih ys zs h1 h2

theorem insertSortedRow_perm (x : List PyVal) (l : List (List PyVal)) :
    (insertSortedRow x l).Perm (x :: l) := by
  induction l with
  | nil => exact List.Perm.refl _
  | cons y ys ih =>
    rw [insertSortedRow]
    by_cases h : rowLtB y x = true
    · rw [if_pos h]
      exact (ih.cons y).trans (List.Perm.swap x y ys)
    · rw [if_neg h]

theorem sortRows_perm (l : List (List PyVal)) : (sortRows l).Perm l := by
  induction l with
  | nil => exact List.Perm.refl _
  | cons x xs ih =>
    exact (insertSortedRow_perm x (sortRows xs)).trans (ih.cons x)

theorem rowLe_of_lt {y x : List PyVal} (h : rowLtB y x = true) : pyRowCmp y x ≠ .gt := by
  have hlt : pyRowCmp y x = .lt := by
    cases hcc : pyRowCmp y x with
    | lt => rfl
    | eq => rw [rowLtB, hcc] at h; exact absurd h (by decide)
    | gt => rw [rowLtB, hcc] at h; exact absurd h (by decide)
  rw [hlt]
  intro hc
  cases hc

theorem rowLe_of_not_lt {y x : List PyVal} (h : rowLtB y x = false) :
    pyRowCmp x y ≠ .gt := by
  intro hc
  have h2 : pyRowCmp y x = .lt := by rw [← pyRowCmp_swap x y, hc]; rfl
  rw [rowLtB, h2] at h
  exact absurd h (by decide)

theorem rowLe_trans {a b c : List PyVal} (h1 : pyRowCmp a b ≠ .gt) (h2 : pyRowCmp b c ≠ .gt) :
    pyRowCmp a c ≠ .gt := by
  intro hc
  cases hab : pyRowCmp a b with
  | gt => exact h1 hab
  | eq =>
    have hab' : a = b := (pyRowCmp_eq_iff _ _).mp hab
    subst hab'
    exact h2 hc
  | lt =>
    cases hbc : pyRowCmp b c with
    | gt => exact h2 hbc
    | eq =>
      have hbc' : b = c := (pyRowCmp_eq_iff _ _).mp hbc
      subst hbc'
      rw [hab] at hc
      cases hc
    | lt =>
      have hl := pyRowCmp_lt_trans a b c hab hbc
      rw [hl] at hc
      cases hc

theorem insertSortedRow_pairwise (x : List PyVal) (l : List (List PyVal))
    (h : l.Pairwise (fun a b => pyRowCmp a b ≠ .gt)) :
    (insertSortedRow x l).Pairwise (fun a b => pyRowCmp a b ≠ .gt) := by
  induction l with
  | nil => simp [insertSortedRow]
  | cons y ys ih =>
    rw [List.pairwise_cons] at h
    rw [insertSortedRow]
    by_cases hxy : rowLtB y x = true
    · rw [if_pos hxy]
      rw [List.pairwise_cons]
      refine ⟨?_, ih h.2⟩
      intro z hz
      rcases List.mem_cons.mp ((insertSortedRow_perm x ys).mem_iff.mp hz) with rfl | hz'
      · exact rowLe_of_lt hxy
      · exact h.1 z hz'
    · have hxy' : rowLtB y x = false := by
        cases hb : rowLtB y x
        · rfl
        · exact absurd hb hxy
      rw [if_neg hxy]
      rw [List.pairwise_cons]
      refine ⟨?_, List.pairwise_cons.mpr h⟩
      intro z hz
      rcases List.mem_cons.mp hz with rfl | hz'
      · exact rowLe_of_not_lt hxy'
      · exact rowLe_trans (rowLe_of_not_lt hxy') (h.1 z hz')

theorem sortRows_pairwise (l : List (List PyVal)) :
    (sortRows l).Pairwise (fun a b => pyRowCmp a b ≠ .gt) := by
  induction l with
  | nil => simp [sortRows]
  | cons x xs ih => exact insertSortedRow_pairwise x (sortRows xs) ih

theorem aggregateSummary_keys (f : String) (rows : List (String × String × String)) :
    ∀ p q, (∀ r ∈ rows, (parseInt r.1).isSome ∧ (classifyAdj r.2.2).isSome) →
    aggregateSummary f p (rows.map rawRow3) = .ok q →
    (((p.map Prod.fst).Nodup → (q.map Prod.fst).Nodup) ∧
     (∀ m, m ∈ q.map Prod.fst ↔ m ∈ p.map Prod.fst ∨ m ∈ monthsOf3 rows)) := by
  induction rows with
  | nil =>
    intro p q _ h
    have hpq : p = q := by
      simpa [aggregateSummary] using h
    subst hpq
    exact ⟨fun h => h, fun m => by simp [monthsOf3]⟩
  | cons r rest ih =>
    intro p q hwf hagg
    obtain ⟨a, b, c⟩ := r
    obtain ⟨m0, hm0⟩ :=
      Option.isSome_iff_exists.mp (hwf _ (List.mem_cons_self _ _)).1
    obtain ⟨cl, hcl⟩ :=
      Option.isSome_iff_exists.mp (hwf _ (List.mem_cons_self _ _)).2
    have hstep : summaryStep f p (rawRow3 (a, b, c)) =
        .ok (dictSet m0
          (if cl then ⟨((dictGet m0 p).getD ⟨Option.none, Option.none⟩).adj, some b⟩
           else ⟨some b, ((dictGet m0 p).getD ⟨Option.none, Option.none⟩).unadj⟩) p) := by
      cases cl <;> simp [summaryStep, rawRow3, hm0, hcl]
    rw [List.map_cons, aggregateSummary_cons, hstep, except_bind_ok_val] at hagg
    obtain ⟨hnd, hmem⟩ := ih _ q (fun x hx => hwf x (List.mem_cons_of_mem _ hx)) hagg
    have hmonths : monthsOf3 ((a, b, c) :: rest) = m0 :: monthsOf3 rest := by
      simp [monthsOf3, List.filterMap_cons, hm0]
    constructor
    · intro hp
      exact hnd (dictSet_keys_nodup _ _ _ hp)
    · intro m
      rw [hmem m, hmonths]
      rw [dictSet_keys_mem]
      simp only [List.mem_cons]
      tauto

theorem actual_date_ok_of_range (m : Int) (h0 : 0 ≤ m) (h1 : m < 96000) :
    actual_date m .ym = .ok (dateStr m) := by
  have hc : ((1:Int) ≤ 2000 + m / 12 && 2000 + m / 12 ≤ 9999) = true := by
    simp only [Bool.and_eq_true, decide_eq_true_eq]
    omega
  simp [actual_date, dateStr, BASE_YEAR, hc]

theorem summaryLastWrite_isSome_of_exists (rows : List (String × String × String)) (m : Int)
    (slot : Bool) (h : ∃ r ∈ rows, parseInt r.1 = some m ∧ classifyAdj r.2.2 = some slot) :
    ∃ v, summaryLastWrite rows m slot = some v := by
  obtain ⟨r, hr, hm, hcl⟩ := h
  have hmem : r ∈ rows.filter
      (fun x => parseInt x.1 == some m && classifyAdj x.2.2 == some slot) := by
    rw [List.mem_filter]
    exact ⟨hr, by simp [hm, hcl]⟩
  unfold summaryLastWrite
  cases hf : rows.filter
      (fun x => parseInt x.1 == some m && classifyAdj x.2.2 == some slot) with
  | nil => rw [hf] at hmem; simp at hmem
  | cons x xs =>
    cases hlast : (x :: xs).getLast? with
    | none => exact absurd (List.getLast?_eq_none_iff.mp hlast) (by simp)
    | some y => exact ⟨y.2.1, rfl⟩

theorem json_for_line_chart_ok (rows : List (List PyVal))
    (h : ∀ row ∈ rows, ∃ m d va vb, row = [PyVal.int m, PyVal.str d, PyVal.str va, PyVal.str vb]
      ∧ (parseDateYM d).isSome) :
    ∃ j, json_for_line_chart rows = .ok j := by
  induction rows with
  | nil => exact ⟨⟨[], []⟩, rfl⟩
  | cons row rest ih =>
    obtain ⟨m, d, va, vb, hrow, hd⟩ := h row (List.mem_cons_self _ _)
    obtain ⟨⟨y, mo⟩, hdp⟩ := Option.isSome_iff_exists.mp hd
    obtain ⟨jt, hjt⟩ := ih (fun x hx => h x (List.mem_cons_of_mem _ hx))
    subst hrow
    have hep : epochtimeVal (PyVal.str d) = .ok (epochDays y mo * 86400) := by
      simp [epochtimeVal, epochtime, hdp]
    refine ⟨⟨stepAdjPts (epochDays y mo * 86400 * SEC_TO_MS) va ++ jt.adjusted,
             stepUnadjPts (epochDays y mo * 86400 * SEC_TO_MS) va vb ++ jt.unadjusted⟩, ?_⟩
    simp only [json_for_line_chart, hep, except_bind_ok_val, twoPointStep_str, hjt]
    rfl

theorem bind_ok_val {e : Type} {a : Type} {b : Type} (x : a) (g : a → Except e b) :
    (Except.ok x : Except e a) >>= g = g x := rfl

theorem hasMonth3_iff_mem (rows : List (String × String × String)) (m : Int) :
    hasMonth3 rows m = true ↔ m ∈ monthsOf3 rows := by
  unfold hasMonth3 monthsOf3
  rw [List.any_eq_true, List.mem_filterMap]
  constructor
  · rintro ⟨r, hr, hp⟩
    exact ⟨r, hr, beq_iff_eq.mp hp⟩
  · rintro ⟨r, hr, hp⟩
    exact ⟨r, hr, beq_iff_eq.mpr hp⟩

theorem dateStr_eq (m : Int) (h0 : 0 ≤ m) (h1 : m < 96000) :
    dateStr m = formatYM (2000 + m / 12).toNat (m % 12 + 1).toNat ∧
    1000 ≤ (2000 + m / 12).toNat ∧ (2000 + m / 12).toNat ≤ 9999 ∧
    1 ≤ (m % 12 + 1).toNat ∧ (m % 12 + 1).toNat ≤ 12 := by
  refine ⟨?_, by omega, by omega, by omega, by omega⟩
  have hc : ((1:Int) ≤ 2000 + m / 12 && 2000 + m / 12 ≤ 9999) = true := by
    simp only [Bool.and_eq_true, decide_eq_true_eq]
    omega
  simp [dateStr, actual_date, BASE_YEAR, hc, renderDate]

theorem parseDateYM_dateStr (m : Int) (h0 : 0 ≤ m) (h1 : m < 96000) :
    (parseDateYM (dateStr m)).isSome := by
  obtain ⟨heq, hb1, hb2, hb3, hb4⟩ := dateStr_eq m h0 h1
  rw [heq, parseDateYM_formatYM _ _ hb1 hb2 hb3 hb4]
  rfl

theorem headlt_of_le_ne (ma mb : Int) (ta tb : List PyVal)
    (hle : pyRowCmp (PyVal.int ma :: ta) (PyVal.int mb :: tb) ≠ .gt)
    (hne : ma ≠ mb) : ma < mb := by
  by_cases h : ma < mb
  · exact h
  · exfalso
    apply hle
    have hgt : pyValCmp (PyVal.int ma) (PyVal.int mb) = .gt := by
      simp only [pyValCmp, if_neg h]
      rw [if_pos (by omega)]
    simp only [pyRowCmp, hgt]

/-- C8 (amended): for a non-empty summary input in which every month key
received both a validly classified adjusted AND unadjusted value (with
in-range months), the pivot output's first row is exactly the output
schema, the remaining rows number exactly the distinct month indices of
the input, they are sorted strictly ascending by month index, and their
month indices are exactly the distinct input months. -/
theorem c8_summary_pivot_shape (f : String) (sch : List String)
    (rows : List (String × String × String)) (hne : rows ≠ [])
    (hwf : ∀ r ∈ rows, (∃ m, parseInt r.1 = some m ∧ 0 ≤ m ∧ m < 96000) ∧
      (classifyAdj r.2.2).isSome)
    (hboth : ∀ m, m ∈ monthsOf3 rows →
      (∃ r ∈ rows, parseInt r.1 = some m ∧ classifyAdj r.2.2 = some false) ∧
      (∃ r ∈ rows, parseInt r.1 = some m ∧ classifyAdj r.2.2 = some true)) :
    ∃ pr j, process_file_summary f sch (rows.map rawRow3) =
        .ok (true, (sch.map PyVal.str) :: pr, some j) ∧
      pr.length = (monthsOf3 rows).toFinset.card ∧
      pr.Chain' (fun a b => rowHeadInt a < rowHeadInt b) ∧
      (∀ m, m ∈ monthsOf3 rows ↔ ∃ row ∈ pr, rowHeadInt row = m) := by
  have hwf' : ∀ r ∈ rows, (parseInt r.1).isSome ∧ (classifyAdj r.2.2).isSome := by
    intro r hr
    obtain ⟨⟨m, hm, _, _⟩, hcl⟩ := hwf r hr
    exact ⟨Option.isSome_iff_exists.mpr ⟨m, hm⟩, hcl⟩
  obtain ⟨q, hq, hchar⟩ := aggregateSummary_char f rows [] hwf'
  obtain ⟨hnodup_f, hkeys⟩ := aggregateSummary_keys f rows [] q hwf' hq
  have hnodup : (q.map Prod.fst).Nodup := hnodup_f (by simp)
  have hkeys' : ∀ m, m ∈ q.map Prod.fst ↔ m ∈ monthsOf3 rows := by
    intro m
    rw [hkeys m]
    simp
  have hmonrange : ∀ m, m ∈ monthsOf3 rows → 0 ≤ m ∧ m < 96000 := by
    intro m hm
    obtain ⟨r, hr, hpr⟩ := List.mem_filterMap.mp hm
    obtain ⟨⟨m', hm', hr0, hr1⟩, _⟩ := hwf r hr
    rw [hm'] at hpr
    obtain rfl := Option.some.inj hpr
    exact ⟨hr0, hr1⟩
  have hentry : ∀ e ∈ q, (∃ va, e.2.adj = some va) ∧ (∃ vb, e.2.unadj = some vb) ∧
      0 ≤ e.1 ∧ e.1 < 96000 := by
    intro e he
    have hmemk : e.1 ∈ q.map Prod.fst := List.mem_map.mpr ⟨e, he, rfl⟩
    have hmon : e.1 ∈ monthsOf3 rows := (hkeys' e.1).mp hmemk
    have hget : dictGet e.1 q = some e.2 := dictGet_of_mem_nodup q e.1 e.2 he hnodup
    rw [hchar e.1, summaryCharRec_nil_left,
      if_pos ((hasMonth3_iff_mem rows e.1).mpr hmon)] at hget
    obtain ⟨hadj, hunadj⟩ := hboth e.1 hmon
    obtain ⟨va, hva⟩ := summaryLastWrite_isSome_of_exists rows e.1 false hadj
    obtain ⟨vb, hvb⟩ := summaryLastWrite_isSome_of_exists rows e.1 true hunadj
    obtain ⟨h0, h1⟩ := hmonrange e.1 hmon
    refine ⟨⟨va, ?_⟩, ⟨vb, ?_⟩, h0, h1⟩
    · rw [← Option.some.inj hget, hva]
    · rw [← Option.some.inj hget, hvb]
  have hpivot : pivotSummary q = .ok (q.map (fun e =>
      [PyVal.int e.1, PyVal.str (dateStr e.1), optVal e.2.adj, optVal e.2.unadj])) := by
    apply mapM_eq_ok_map
    intro e he
    obtain ⟨_, _, h0, h1⟩ := hentry e he
    simp only [actual_date_ok_of_range e.1 h0 h1, except_bind_ok_val]
    rfl
  have hmapshape : ∀ row ∈ q.map (fun e =>
      [PyVal.int e.1, PyVal.str (dateStr e.1), optVal e.2.adj, optVal e.2.unadj]),
      ∃ m d va vb, row = [PyVal.int m, PyVal.str d, PyVal.str va, PyVal.str vb] ∧
        (parseDateYM d).isSome := by
    intro row hrow
    obtain ⟨e, he, hrow'⟩ := List.mem_map.mp hrow
    obtain ⟨⟨va, hva⟩, ⟨vb, hvb⟩, h0, h1⟩ := hentry e he
    exact ⟨e.1, dateStr e.1, va, vb,
      by rw [← hrow', hva, hvb]; rfl, parseDateYM_dateStr e.1 h0 h1⟩
  have hsortperm := sortRows_perm (q.map (fun e =>
      [PyVal.int e.1, PyVal.str (dateStr e.1), optVal e.2.adj, optVal e.2.unadj]))
  obtain ⟨j, hj⟩ := json_for_line_chart_ok _ (fun row hrow =>
    hmapshape row (hsortperm.mem_iff.mp hrow))
  have hheads : (q.map (fun e =>
      [PyVal.int e.1, PyVal.str (dateStr e.1), optVal e.2.adj, optVal e.2.unadj])).map
        rowHeadInt = q.map Prod.fst := by
    rw [List.map_map]
    exact List.map_congr_left (fun e _ => rfl)
  have hqne : q ≠ [] := by
    intro hq0
    obtain ⟨r0, hr0⟩ : ∃ r0, r0 ∈ rows := by
      cases rows with
      | nil => exact absurd rfl hne
      | cons x xs => exact ⟨x, List.mem_cons_self _ _⟩
    obtain ⟨⟨m, hm, _, _⟩, _⟩ := hwf r0 hr0
    have : m ∈ monthsOf3 rows := List.mem_filterMap.mpr ⟨r0, hr0, hm⟩
    rw [← hkeys' m, hq0] at this
    simp at this
  have hprne : sortRows (q.map (fun e =>
      [PyVal.int e.1, PyVal.str (dateStr e.1), optVal e.2.adj, optVal e.2.unadj])) ≠ [] := by
    intro h0
    have := hsortperm.length_eq
    rw [h0] at this
    cases q with
    | nil => exact hqne rfl
    | cons x xs => simp at this
  have hlen1 : 1 < ((sch.map PyVal.str) :: sortRows (q.map (fun e =>
      [PyVal.int e.1, PyVal.str (dateStr e.1), optVal e.2.adj, optVal e.2.unadj]))).length := by
    simp only [List.length_cons]
    have := List.length_pos.mpr hprne
    omega
  refine ⟨sortRows (q.map (fun e =>
      [PyVal.int e.1, PyVal.str (dateStr e.1), optVal e.2.adj, optVal e.2.unadj])), j, ?_, ?_, ?_, ?_⟩
  · simp only [process_file_summary, hq, except_bind_ok_val, bind_ok_val, hpivot]
    rw [if_pos hlen1]
    simp only [hj, except_bind_ok_val, bind_ok_val]
  · rw [hsortperm.length_eq, List.length_map]
    have h1 : (q.map Prod.fst).toFinset = (monthsOf3 rows).toFinset := by
      apply Finset.ext
      intro m
      rw [List.mem_toFinset, List.mem_toFinset]
      exact hkeys' m
    calc q.length = (q.map Prod.fst).length := (List.length_map _ _).symm
      _ = (q.map Prod.fst).dedup.length := by rw [hnodup.dedup]
      _ = (q.map Prod.fst).toFinset.card := (List.card_toFinset _).symm
      _ = (monthsOf3 rows).toFinset.card := by rw [h1]
  · have hpair := sortRows_pairwise (q.map (fun e =>
      [PyVal.int e.1, PyVal.str (dateStr e.1), optVal e.2.adj, optVal e.2.unadj]))
    have hndheads : ((sortRows (q.map (fun e =>
        [PyVal.int e.1, PyVal.str (dateStr e.1), optVal e.2.adj, optVal e.2.unadj]))).map
          rowHeadInt).Nodup := by
      rw [(hsortperm.map rowHeadInt).nodup_iff, hheads]
      exact hnodup
    have hndpair := List.pairwise_map.mp hndheads
    have hcomb := hpair.and hndpair
    apply List.Pairwise.chain'
    apply hcomb.imp_of_mem
    intro a b ha hb hab
    obtain ⟨ma, da, va', vb', hsa, _⟩ := hmapshape a (hsortperm.mem_iff.mp ha)
    obtain ⟨mb, db, va2, vb2, hsb, _⟩ := hmapshape b (hsortperm.mem_iff.mp hb)
    subst hsa
    subst hsb
    have := headlt_of_le_ne ma mb _ _ hab.1 (by simpa [rowHeadInt] using hab.2)
    simpa [rowHeadInt] using this
  · intro m
    constructor
    · intro hm
      obtain ⟨e, he, hem⟩ := List.mem_map.mp ((hkeys' m).mpr hm)
      refine ⟨[PyVal.int e.1, PyVal.str (dateStr e.1), optVal e.2.adj, optVal e.2.unadj],
        hsortperm.mem_iff.mpr (List.mem_map.mpr ⟨e, he, rfl⟩), ?_⟩
      simpa [rowHeadInt] using hem
    · rintro ⟨row, hrow, hhead⟩
      obtain ⟨e, he, hrow'⟩ := List.mem_map.mp (hsortperm.mem_iff.mp hrow)
      rw [← hhead, ← hrow']
      have : e.1 ∈ q.map Prod.fst := List.mem_map.mpr ⟨e, he, rfl⟩
      simpa [rowHeadInt] using (hkeys' e.1).mp this

/-- C8 counterexample: a summary input whose single month key received one
validly classified (adjusted) value still aborts with an uncaught
TypeError, because the unpopulated unadjusted slot is `None` and
`float(None)` in the JSON step raises outside the `except ValueError`. -/
theorem c8_counterexample :
    process_file_summary "num_data_AUT.csv" SUMMARY_NUM_OUTPUT_SCHEMA
      [["0", "1.0", "Seasonally adjusted"]] =
      .error (.typeError "float() argument must be a string or a number") := by
  decide

theorem c8_witness :
    ∃ pr j, process_file_summary "num_data_AUT.csv" SUMMARY_NUM_OUTPUT_SCHEMA
        ([("0", "1.0", "Seasonally adjusted"), ("0", "2.0", "Unadjusted")].map rawRow3) =
        .ok (true, (SUMMARY_NUM_OUTPUT_SCHEMA.map PyVal.str) :: pr, some j) ∧
      pr.length =
        (monthsOf3 [("0", "1.0", "Seasonally adjusted"), ("0", "2.0", "Unadjusted")]).toFinset.card ∧
      pr.Chain' (fun a b => rowHeadInt a < rowHeadInt b) ∧
      (∀ m, m ∈ monthsOf3 [("0", "1.0", "Seasonally adjusted"), ("0", "2.0", "Unadjusted")] ↔
        ∃ row ∈ pr, rowHeadInt row = m) := by
  apply c8_summary_pivot_shape
  · decide
  · intro r hr
    rcases List.mem_cons.mp hr with rfl | hr2
    · exact ⟨⟨0, by decide, by decide, by decide⟩, by decide⟩
    · rcases List.mem_cons.mp hr2 with rfl | hr3
      · exact ⟨⟨0, by decide, by decide, by decide⟩, by decide⟩
      · simp at hr3
  · intro m hm
    have hm0 : m = 0 := by
      have hms : monthsOf3 [("0", "1.0", "Seasonally adjusted"), ("0", "2.0", "Unadjusted")] =
          [0, 0] := by decide
      rw [hms] at hm
      simpa using hm
    subst hm0
    constructor
    · exact ⟨("0", "1.0", "Seasonally adjusted"), by decide, by decide, by decide⟩
    · exact ⟨("0", "2.0", "Unadjusted"), by decide, by decide, by decide⟩

theorem mem_dictSet {κ β : Type} [DecidableEq κ] (p : List (κ × β)) (k : κ) (v : β)
    (e : κ × β) (h : e ∈ dictSet k v p) : e = (k, v) ∨ e ∈ p := by
  induction p with
  | nil =>
    rw [dictSet] at h
    exact Or.inl (List.mem_singleton.mp h)
  | cons x rest ih =>
    obtain ⟨k', v'⟩ := x
    by_cases hk : k = k'
    · subst hk
      rw [dictSet, if_pos rfl] at h
      rcases List.mem_cons.mp h with rfl | h'
      · exact Or.inl rfl
      · exact Or.inr (List.mem_cons_of_mem _ h')
    · rw [dictSet, if_neg hk] at h
      rcases List.mem_cons.mp h with rfl | h'
      · exact Or.inr (List.mem_cons_self _ _)
      · rcases ih h' with h'' | h''
        · exact Or.inl h''
        · exact Or.inr (List.mem_cons_of_mem _ h'')

theorem dictSet_keys_of_mem {κ β : Type} [DecidableEq κ] (p : List (κ × β)) (k : κ) (v : β)
    (h : k ∈ p.map Prod.fst) : (dictSet k v p).map Prod.fst = p.map Prod.fst := by
  induction p with
  | nil => simp at h
  | cons x rest ih =>
    obtain ⟨k', v'⟩ := x
    by_cases hk : k = k'
    · subst hk
      rw [dictSet, if_pos rfl]
      simp
    · rw [dictSet, if_neg hk]
      simp only [List.map_cons]
      rw [ih]
      simp only [List.map_cons, List.mem_cons] at h
      rcases h with h' | h'
      · exact absurd h' hk
      · exact h'

theorem dictGet_default_inner (g : String) (gns : List String) (hg : g ∈ gns) :
    dictGet g (gns.map (fun x => (x, (Option.none : Option String)))) =
      some Option.none := by
  induction gns with
  | nil => simp at hg
  | cons x rest ih =>
    by_cases hx : g = x
    · subst hx
      simp [dictGet]
    · rw [List.map_cons, dictGet, if_neg hx]
      rcases List.mem_cons.mp hg with h' | h'
      · exact absurd h' hx
      · exact ih h'

theorem getLast?_cons_orO {α : Type} (f : α → String) (r : α) (l : List α) :
    ((r :: l).getLast?).map f = orO ((l.getLast?).map f) (some (f r)) := by
  induction l generalizing r with
  | nil => rfl
  | cons b t ih =>
    rw [List.getLast?_cons_cons, ih b, orO_assoc]
    rfl

theorem yoyLastVal_cons (r : String × String × String)
    (rest : List (String × String × String)) (m : Int) (g : String) :
    yoyLastVal (r :: rest) m g =
      if (parseInt r.1 == some m && r.2.2 == g) = true
      then orO (yoyLastVal rest m g) (some r.2.1)
      else yoyLastVal rest m g := by
  unfold yoyLastVal
  rw [List.filter_cons]
  by_cases hc : (parseInt r.1 == some m && r.2.2 == g) = true
  · rw [if_pos hc, if_pos hc]
    exact getLast?_cons_orO _ r _
  · rw [if_neg hc, if_neg hc]

theorem aggregateYoyGroups_cons (f : String) (gns : List String)
    (p : List (Int × List (String × Option String))) (row : List String)
    (rest : List (List String)) :
    aggregateYoyGroups f gns p (row :: rest) =
      (groupYoyStep f gns p row).bind (fun q => aggregateYoyGroups f gns q rest) := rfl

theorem yoyOldVal_dictSet_eq (p : List (Int × List (String × Option String))) (m : Int)
    (ni : List (String × Option String)) (g : String) :
    yoyOldVal (dictSet m ni p) m g =
      match dictGet g ni with
      | some x => x
      | Option.none => Option.none := by
  unfold yoyOldVal
  rw [dictGet_dictSet, if_pos rfl]

theorem yoyOldVal_dictSet_ne (p : List (Int × List (String × Option String))) (m m' : Int)
    (ni : List (String × Option String)) (g : String) (h : m' ≠ m) :
    yoyOldVal (dictSet m ni p) m' g = yoyOldVal p m' g := by
  unfold yoyOldVal
  rw [dictGet_dictSet, if_neg h]

theorem aggregateYoyGroups_char (f : String) (gns : List String)
    (rows : List (String × String × String)) :
    ∀ p, (∀ r ∈ rows, (parseInt r.1).isSome ∧ r.2.2 ∈ gns) →
      (∀ e ∈ p, e.2.map Prod.fst = gns) →
    ∃ q, aggregateYoyGroups f gns p (rows.map rawRow3) = .ok q ∧
      (∀ e ∈ q, e.2.map Prod.fst = gns) ∧
      (∀ m, m ∈ q.map Prod.fst ↔ m ∈ p.map Prod.fst ∨ m ∈ monthsOf3 rows) ∧
      ((p.map Prod.fst).Nodup → (q.map Prod.fst).Nodup) ∧
      (∀ m g, g ∈ gns →
        yoyOldVal q m g = orO (yoyLastVal rows m g) (yoyOldVal p m g)) := by
  induction rows with
  | nil =>
    intro p _ hp
    refine ⟨p, rfl, hp, ?_, fun h => h, ?_⟩
    · intro m
      simp [monthsOf3]
    · intro m g _
      have hlv : yoyLastVal [] m g = Option.none := rfl
      rw [hlv]
      rfl
  | cons r rest ih =>
    intro p hwf hp
    obtain ⟨a, b, c⟩ := r
    obtain ⟨m0, hm0⟩ :=
      Option.isSome_iff_exists.mp (hwf _ (List.mem_cons_self _ _)).1
    have hgc : c ∈ gns := (hwf _ (List.mem_cons_self _ _)).2
    have hcont : gns.contains c = true := by simpa using hgc
    have hstep : groupYoyStep f gns p (rawRow3 (a, b, c)) =
        .ok (dictSet m0
          (dictSet c (some b)
            ((dictGet m0 p).getD (gns.map (fun g => (g, (Option.none : Option String)))))) p) := by
      simp [groupYoyStep, rawRow3, hm0, hcont, hgc]
    have hni : (dictSet c (some b)
        ((dictGet m0 p).getD
          (gns.map (fun g => (g, (Option.none : Option String)))))).map Prod.fst = gns := by
      have hkd : (gns.map (fun g => (g, (Option.none : Option String)))).map Prod.fst
          = gns := by
        have hcmp : (Prod.fst ∘ fun g : String => (g, (Option.none : Option String))) = id := rfl
        rw [List.map_map, hcmp, List.map_id]
      cases hdg : dictGet m0 p with
      | some inner0 =>
        have hk0 : inner0.map Prod.fst = gns := hp _ (mem_of_dictGet p m0 inner0 hdg)
        rw [Option.getD_some, dictSet_keys_of_mem _ _ _ (by rw [hk0]; exact hgc)]
        exact hk0
      | none =>
        rw [Option.getD_none, dictSet_keys_of_mem _ _ _ (by rw [hkd]; exact hgc)]
        exact hkd
    have hp' : ∀ e ∈ dictSet m0
        (dictSet c (some b)
          ((dictGet m0 p).getD (gns.map (fun g => (g, (Option.none : Option String)))))) p,
        e.2.map Prod.fst = gns := by
      intro e he
      rcases mem_dictSet _ _ _ _ he with rfl | he'
      · exact hni
      · exact hp e he'
    obtain ⟨q, hq, hkq, hkeys, hnd, hval⟩ := ih _
      (fun x hx => hwf x (List.mem_cons_of_mem _ hx)) hp'
    have hmons : monthsOf3 ((a, b, c) :: rest) = m0 :: monthsOf3 rest := by
      simp [monthsOf3, List.filterMap_cons, hm0]
    refine ⟨q, ?_, hkq, ?_, ?_, ?_⟩
    · rw [List.map_cons, aggregateYoyGroups_cons, hstep, except_bind_ok_val]
      exact hq
    · intro m
      rw [hkeys m, dictSet_keys_mem, hmons]
      rw [List.mem_cons]
      tauto
    · intro hnodp
      exact hnd (dictSet_keys_nodup _ _ _ hnodp)
    · intro m g hg
      rw [hval m g hg, yoyLastVal_cons]
      by_cases hm : m = m0
      · subst hm
        by_cases hgg : g = c
        · have hcnd : (parseInt (a, b, c).1 == some m && (a, b, c).2.2 == g) = true := by
            simp [hm0, hgg]
          rw [if_pos hcnd]
          rw [yoyOldVal_dictSet_eq, dictGet_dictSet, if_pos hgg, orO_assoc]
          rfl
        · have hcnd : (parseInt (a, b, c).1 == some m && (a, b, c).2.2 == g) = false := by
            simp [hm0]
            intro hcontra
            exact absurd hcontra.symm hgg
          rw [hcnd]
          simp only [Bool.false_eq_true, if_false]
          rw [yoyOldVal_dictSet_eq, dictGet_dictSet, if_neg hgg]
          cases hdg : dictGet m p with
          | some inner0 =>
            simp only [Option.getD_some]
            unfold yoyOldVal
            rw [hdg]
          | none =>
            simp only [Option.getD_none]
            rw [dictGet_default_inner g gns hg]
            unfold yoyOldVal
            rw [hdg]
      · have hcnd : (parseInt (a, b, c).1 == some m && (a, b, c).2.2 == g) = false := by
          simp [hm0]
          intro hcontra
          exact absurd hcontra.symm hm
        rw [hcnd]
        simp only [Bool.false_eq_true, if_false]
        rw [yoyOldVal_dictSet_ne _ _ _ _ _ hm]

/-- C5: in the grouped YOY pipeline, every month key is pre-populated with
all legal group names mapped to None, so for well-formed input every output
data row for month m is exactly `[m, date(m)]` followed by one value column
per legal group name in the fixed `group_names` order, where a group with
no row for that month shows the explicit `None` (`yoyLastVal = none`)
rather than a missing column. -/
theorem c5_group_yoy_prepopulation (f : String) (gns sch : List String)
    (rows : List (String × String × String)) (hne : rows ≠ [])
    (hwf : ∀ r ∈ rows, (∃ m, parseInt r.1 = some m ∧ 0 ≤ m ∧ m < 96000) ∧ r.2.2 ∈ gns) :
    ∃ pr, process_group_yoy_groups f gns sch (rows.map rawRow3) =
        .ok (true, (sch.map PyVal.str) :: pr) ∧
      (∀ row ∈ pr, ∃ m, m ∈ monthsOf3 rows ∧
        row = [PyVal.int m, PyVal.str (dateStr m)] ++
          gns.map (fun g => optVal (yoyLastVal rows m g))) ∧
      (∀ m, m ∈ monthsOf3 rows → ∃ row ∈ pr, rowHeadInt row = m) ∧
      (∀ row ∈ pr, row.length = 2 + gns.length) := by
  have hwf' : ∀ r ∈ rows, (parseInt r.1).isSome ∧ r.2.2 ∈ gns := by
    intro r hr
    obtain ⟨⟨m, hm, _, _⟩, hgr⟩ := hwf r hr
    exact ⟨Option.isSome_iff_exists.mpr ⟨m, hm⟩, hgr⟩
  obtain ⟨q, hq, hkq, hkeys, hnd, hval⟩ := aggregateYoyGroups_char f gns rows []
    hwf' (by intro e he; simp at he)
  have hnodup : (q.map Prod.fst).Nodup := hnd (by simp)
  have hkeys' : ∀ m, m ∈ q.map Prod.fst ↔ m ∈ monthsOf3 rows := by
    intro m
    rw [hkeys m]
    simp
  have hmonrange : ∀ m, m ∈ monthsOf3 rows → 0 ≤ m ∧ m < 96000 := by
    intro m hm
    obtain ⟨r, hr, hpr⟩ := List.mem_filterMap.mp hm
    obtain ⟨⟨m', hm', hr0, hr1⟩, _⟩ := hwf r hr
    rw [hm'] at hpr
    obtain rfl := Option.some.inj hpr
    exact ⟨hr0, hr1⟩
  have hcol : ∀ e ∈ q, ∀ g ∈ gns,
      (dictGet g e.2).getD Option.none = yoyLastVal rows e.1 g := by
    intro e he g hg
    have hgetq : dictGet e.1 q = some e.2 := dictGet_of_mem_nodup q e.1 e.2 he hnodup
    have h1 : yoyOldVal q e.1 g = yoyLastVal rows e.1 g := by
      rw [hval e.1 g hg]
      have h0 : yoyOldVal [] e.1 g = Option.none := rfl
      rw [h0, orO_none]
    have h2 : yoyOldVal q e.1 g =
        match dictGet g e.2 with
        | some x => x
        | Option.none => Option.none := by
      unfold yoyOldVal
      rw [hgetq]
    rw [← h1, h2]
    cases dictGet g e.2 <;> rfl
  have hpivot : pivotYoyGroups gns q = .ok (q.map (fun e =>
      [PyVal.int e.1, PyVal.str (dateStr e.1)] ++
        gns.map (fun g => optVal (yoyLastVal rows e.1 g)))) := by
    apply mapM_eq_ok_map
    intro e he
    have hmon : e.1 ∈ monthsOf3 rows :=
      (hkeys' e.1).mp (List.mem_map.mpr ⟨e, he, rfl⟩)
    obtain ⟨h0, h1⟩ := hmonrange e.1 hmon
    simp only [actual_date_ok_of_range e.1 h0 h1, except_bind_ok_val, bind_ok_val]
    have hmapg : gns.map (fun g => optVal ((dictGet g e.2).getD Option.none)) =
        gns.map (fun g => optVal (yoyLastVal rows e.1 g)) :=
      List.map_congr_left (fun g hg => by rw [hcol e he g hg])
    rw [hmapg]
  have hsortperm := sortRows_perm (q.map (fun e =>
      [PyVal.int e.1, PyVal.str (dateStr e.1)] ++
        gns.map (fun g => optVal (yoyLastVal rows e.1 g))))
  have hqne : q ≠ [] := by
    intro hq0
    obtain ⟨r0, hr0⟩ : ∃ r0, r0 ∈ rows := by
      cases rows with
      | nil => exact absurd rfl hne
      | cons x xs => exact ⟨x, List.mem_cons_self _ _⟩
    obtain ⟨⟨m, hm, _, _⟩, _⟩ := hwf r0 hr0
    have hmm : m ∈ monthsOf3 rows := List.mem_filterMap.mpr ⟨r0, hr0, hm⟩
    rw [← hkeys' m, hq0] at hmm
    simp at hmm
  have hprne : sortRows (q.map (fun e =>
      [PyVal.int e.1, PyVal.str (dateStr e.1)] ++
        gns.map (fun g => optVal (yoyLastVal rows e.1 g)))) ≠ [] := by
    intro h0
    have hl := hsortperm.length_eq
    rw [h0] at hl
    cases q with
    | nil => exact hqne rfl
    | cons x xs => simp at hl
  have hlen1 : 1 < ((sch.map PyVal.str) :: sortRows (q.map (fun e =>
      [PyVal.int e.1, PyVal.str (dateStr e.1)] ++
        gns.map (fun g => optVal (yoyLastVal rows e.1 g))))).length := by
    simp only [List.length_cons]
    have := List.length_pos.mpr hprne
    omega
  refine ⟨sortRows (q.map (fun e =>
      [PyVal.int e.1, PyVal.str (dateStr e.1)] ++
        gns.map (fun g => optVal (yoyLastVal rows e.1 g)))), ?_, ?_, ?_, ?_⟩
  · simp only [process_group_yoy_groups, hq, except_bind_ok_val, bind_ok_val, hpivot]
    rw [if_pos hlen1]
  · intro row hrow
    obtain ⟨e, he, hrow'⟩ := List.mem_map.mp (hsortperm.mem_iff.mp hrow)
    exact ⟨e.1, (hkeys' e.1).mp (List.mem_map.mpr ⟨e, he, rfl⟩), hrow'.symm⟩
  · intro m hm
    obtain ⟨e, he, hem⟩ := List.mem_map.mp ((hkeys' m).mpr hm)
    refine ⟨[PyVal.int e.1, PyVal.str (dateStr e.1)] ++
        gns.map (fun g => optVal (yoyLastVal rows e.1 g)),
      hsortperm.mem_iff.mpr (List.mem_map.mpr ⟨e, he, rfl⟩), ?_⟩
    simpa [rowHeadInt] using hem
  · intro row hrow
    obtain ⟨e, he, hrow'⟩ := List.mem_map.mp (hsortperm.mem_iff.mp hrow)
    rw [← hrow']
    simp only [List.length_append, List.length_map, List.length_cons, List.length_nil]

theorem c5_witness :
    ∃ pr, process_group_yoy_groups "age_yoy_data_AUT.csv" AGE_YOY_IN ["month", "date"]
        ([("0", "1.1", "Younger than 30")].map rawRow3) =
        .ok (true, (["month", "date"].map PyVal.str) :: pr) ∧
      (∀ row ∈ pr, ∃ m, m ∈ monthsOf3 [("0", "1.1", "Younger than 30")] ∧
        row = [PyVal.int m, PyVal.str (dateStr m)] ++
          AGE_YOY_IN.map (fun g => optVal (yoyLastVal [("0", "1.1", "Younger than 30")] m g))) ∧
      (∀ m, m ∈ monthsOf3 [("0", "1.1", "Younger than 30")] →
        ∃ row ∈ pr, rowHeadInt row = m) ∧
      (∀ row ∈ pr, row.length = 2 + AGE_YOY_IN.length) := by
  apply c5_group_yoy_prepopulation
  · decide
  · intro r hr
    rcases List.mem_cons.mp hr with rfl | hr2
    · exact ⟨⟨0, by decide, by decide, by decide⟩, by decide⟩
    · simp at hr2
